import Mathlib

set_option maxRecDepth 8000

/-!
Verification development for the lrvm register virtual machine and its
two-pass assembler.  The definitions below are a shallow embedding of the
Rust sources:

* `src/instruction.rs`   — the `Opcode` enumeration and its byte encodings;
* `src/vm.rs`            — the `VM` state and the fetch-decode-execute loop;
* `src/assembler/*.rs`   — the nom parser combinators, the instruction
  encoder and the two-pass assembler driver.

Modelling conventions, fixed once and used everywhere:

* machine bytes are `Nat` values (the programs we build keep them below 256,
  and every place where the Rust code truncates with an `as u8` / `as u16`
  cast performs the corresponding explicit `% 256` / `% 65536`);
* `i32` values are `Int` with two's-complement wrapping made explicit by
  `wrap32` (release-mode wrapping semantics of Rust's arithmetic);
* `usize` values are `Nat`; casts from signed types are explicit
  (`usizeOfI32`), additions and subtractions that can wrap take an explicit
  `% 2 ^ 64`;
* Rust panics (out-of-bounds indexing and slicing, division by zero,
  `unwrap` failures) are `Except.error` with a message, so a panicking
  execution returns no result at all — in particular no event log;
* `f64` registers are Lean `Float`; the timestamps (`chrono`) and UUIDs
  carried by `VMEvent` are real-time values outside the embedding, so an
  event is represented by its `VMEventType` payload alone and the
  chronological order of the log is the order of the list.
-/

namespace LRVM

/-- Opcodes of the VM instruction set, from `src/instruction.rs`.  The
comment after each constructor is its byte encoding. -/
inductive Opcode where
  | LOAD    -- 0
  | ADD     -- 1
  | SUB     -- 2
  | MUL     -- 3
  | DIV     -- 4
  | HLT     -- 5
  | JMP     -- 6
  | JMPF    -- 7
  | JMPB    -- 8
  | EQ      -- 9
  | NEQ     -- 10
  | GTE     -- 11
  | LTE     -- 12
  | LT      -- 13
  | GT      -- 14
  | JMPE    -- 15
  | NOP     -- 16
  | ALOC    -- 17
  | INC     -- 18
  | DEC     -- 19
  | DJMPE   -- 20
  | IGL     -- 100
  | PRTS    -- 21
  | LOADF64 -- 22
  | ADDF64  -- 23
  | SUBF64  -- 24
  | MULF64  -- 25
  | DIVF64  -- 26
  | EQF64   -- 27
  | NEQF64  -- 28
  | GTF64   -- 29
  | GTEF64  -- 30
  | LTF64   -- 31
  | LTEF64  -- 32
  | SHL     -- 33
  | SHR     -- 34
  | AND     -- 35
  | OR      -- 36
  | XOR     -- 37
  | NOT     -- 38
  | LUI     -- 39
  | CLOOP   -- 40
  | LOOP    -- 41
  | LOADM   -- 42
  | SETM    -- 43
  | PUSH    -- 44
  | POP     -- 45
  | CALL    -- 46
  | RET     -- 47
deriving DecidableEq, Repr

/-- `impl From<u8> for Opcode` of `src/instruction.rs`: any unknown byte
maps to the illegal-instruction sentinel `IGL`. -/
def Opcode.fromByte (value : Nat) : Opcode :=
  match value with
  | 0 => .LOAD
  | 1 => .ADD
  | 2 => .SUB
  | 3 => .MUL
  | 4 => .DIV
  | 5 => .HLT
  | 6 => .JMP
  | 7 => .JMPF
  | 8 => .JMPB
  | 9 => .EQ
  | 10 => .NEQ
  | 11 => .GTE
  | 12 => .LTE
  | 13 => .LT
  | 14 => .GT
  | 15 => .JMPE
  | 16 => .NOP
  | 17 => .ALOC
  | 18 => .INC
  | 19 => .DEC
  | 20 => .DJMPE
  | 21 => .PRTS
  | 22 => .LOADF64
  | 23 => .ADDF64
  | 24 => .SUBF64
  | 25 => .MULF64
  | 26 => .DIVF64
  | 27 => .EQF64
  | 28 => .NEQF64
  | 29 => .GTF64
  | 30 => .GTEF64
  | 31 => .LTF64
  | 32 => .LTEF64
  | 33 => .SHL
  | 34 => .SHR
  | 35 => .AND
  | 36 => .OR
  | 37 => .XOR
  | 38 => .NOT
  | 39 => .LUI
  | 40 => .CLOOP
  | 41 => .LOOP
  | 42 => .LOADM
  | 43 => .SETM
  | 44 => .PUSH
  | 45 => .POP
  | 46 => .CALL
  | 47 => .RET
  | _ => .IGL

/-- `impl Into<u8> for Opcode` of `src/instruction.rs`. -/
def Opcode.toByte : Opcode → Nat
  | .LOAD => 0
  | .ADD => 1
  | .SUB => 2
  | .MUL => 3
  | .DIV => 4
  | .HLT => 5
  | .JMP => 6
  | .JMPF => 7
  | .JMPB => 8
  | .EQ => 9
  | .NEQ => 10
  | .GTE => 11
  | .LTE => 12
  | .LT => 13
  | .GT => 14
  | .JMPE => 15
  | .NOP => 16
  | .ALOC => 17
  | .INC => 18
  | .DEC => 19
  | .DJMPE => 20
  | .PRTS => 21
  | .LOADF64 => 22
  | .ADDF64 => 23
  | .SUBF64 => 24
  | .MULF64 => 25
  | .DIVF64 => 26
  | .EQF64 => 27
  | .NEQF64 => 28
  | .GTF64 => 29
  | .GTEF64 => 30
  | .LTF64 => 31
  | .LTEF64 => 32
  | .SHL => 33
  | .SHR => 34
  | .AND => 35
  | .OR => 36
  | .XOR => 37
  | .NOT => 38
  | .LUI => 39
  | .CLOOP => 40
  | .LOOP => 41
  | .LOADM => 42
  | .SETM => 43
  | .PUSH => 44
  | .POP => 45
  | .CALL => 46
  | .RET => 47
  | .IGL => 100

/-- `Opcode::from(&str)` of `src/instruction.rs` (the mnemonic table used by
the opcode parser); unknown mnemonics map to `IGL`. -/
def Opcode.fromMnemonic (value : String) : Opcode :=
  match value with
  | "load" => .LOAD
  | "add" => .ADD
  | "sub" => .SUB
  | "mul" => .MUL
  | "div" => .DIV
  | "hlt" => .HLT
  | "jmp" => .JMP
  | "jmpf" => .JMPF
  | "jmpb" => .JMPB
  | "eq" => .EQ
  | "neq" => .NEQ
  | "gte" => .GTE
  | "lte" => .LTE
  | "lt" => .LT
  | "gt" => .GT
  | "jmpe" => .JMPE
  | "nop" => .NOP
  | "aloc" => .ALOC
  | "inc" => .INC
  | "dec" => .DEC
  | "djmpe" => .DJMPE
  | "igl" => .IGL
  | "prts" => .PRTS
  | "loadf64" => .LOADF64
  | "addf64" => .ADDF64
  | "subf64" => .SUBF64
  | "mulf64" => .MULF64
  | "divf64" => .DIVF64
  | "eqf64" => .EQF64
  | "neqf64" => .NEQF64
  | "gtf64" => .GTF64
  | "gtef64" => .GTEF64
  | "ltf64" => .LTF64
  | "ltef64" => .LTEF64
  | "shl" => .SHL
  | "shr" => .SHR
  | "and" => .AND
  | "or" => .OR
  | "xor" => .XOR
  | "not" => .NOT
  | "lui" => .LUI
  | "cloop" => .CLOOP
  | "loop" => .LOOP
  | "loadm" => .LOADM
  | "setm" => .SETM
  | "push" => .PUSH
  | "pop" => .POP
  | "call" => .CALL
  | "ret" => .RET
  | _ => .IGL

/-- Two's-complement wrap of an integer into the `i32` range
`[-2 ^ 31, 2 ^ 31)`; this is Rust's (release-mode) wrapping arithmetic made
explicit. -/
def wrap32 (z : Int) : Int :=
  (z + 2 ^ 31).emod (2 ^ 32) - 2 ^ 31

/-- Rust's `as usize` cast applied to an `i32` value: sign extension to 64
bits reinterpreted as an unsigned quantity. -/
def usizeOfI32 (v : Int) : Nat :=
  (v.emod (2 ^ 64)).toNat

/-- Rust's `as i32` cast applied to a `usize` value: truncation to the low
32 bits, reinterpreted as signed. -/
def i32OfUsize (n : Nat) : Int :=
  wrap32 (n : Int)

/-- `VMEvent` of `src/vm.rs`, reduced to its `VMEventType` payload (the
`chrono` timestamp and the application UUID are real-time values outside
the embedding; the log order is the list order). -/
inductive VMEventType where
  | Start : VMEventType
  | GracefulStop : Nat → VMEventType
  | Crash : Nat → VMEventType
deriving DecidableEq, Repr

/-- The `VM` state of `src/vm.rs`.  The networking fields
(`connection_manager`, `alias`, `logical_cores`, `id`,
`server_addr`, `server_port`) belong to the excluded cluster layer and
carry no instruction semantics, so they are omitted. -/
structure VM where
  registers : List Int
  float_registers : List Float
  program : List Nat
  pc : Nat
  heap : List Nat
  stack : List Nat
  reminder : Nat
  equal_flag : Bool
  loop_counter : Nat
  ro_data : List Nat
  events : List VMEventType

/-- `DEFAULT_HEAP_STARTING_SIZE` of `src/vm.rs`. -/
def DEFAULT_HEAP_STARTING_SIZE : Nat := 64

/-- `VM::new()` of `src/vm.rs`. -/
def VM.new : VM :=
  { registers := List.replicate 32 0
    float_registers := List.replicate 32 0.0
    program := []
    pc := 0
    heap := List.replicate DEFAULT_HEAP_STARTING_SIZE 0
    stack := []
    reminder := 0
    equal_flag := false
    loop_counter := 0
    ro_data := []
    events := [] }

/-- Fallible execution: `Except.error` models a Rust panic. -/
abbrev Exec (α : Type) := Except String α

/-- Read one byte of program memory; indexing out of bounds panics, as
Rust's `self.program[i]` does. -/
def progByte (vm : VM) (i : Nat) : Exec Nat :=
  match vm.program.get? i with
  | some b => .ok b
  | none => .error "program index out of bounds"

/-- `VM::decode_opcode` of `src/vm.rs`. -/
def decode_opcode (vm : VM) : Exec (Opcode × VM) := do
  let b ← progByte vm vm.pc
  .ok (Opcode.fromByte b, { vm with pc := vm.pc + 1 })

/-- `VM::next_8_bits` of `src/vm.rs`. -/
def next_8_bits (vm : VM) : Exec (Nat × VM) := do
  let b ← progByte vm vm.pc
  .ok (b, { vm with pc := vm.pc + 1 })

/-- `VM::next_16_bits` of `src/vm.rs`: big-endian 16-bit read. -/
def next_16_bits (vm : VM) : Exec (Nat × VM) := do
  let hi ← progByte vm vm.pc
  let lo ← progByte vm (vm.pc + 1)
  .ok (hi * 256 + lo, { vm with pc := vm.pc + 2 })

/-- Read integer register `i`; `self.registers[i]` panics out of bounds. -/
def regGet (vm : VM) (i : Nat) : Exec Int :=
  match vm.registers.get? i with
  | some v => .ok v
  | none => .error "register index out of bounds"

/-- Write integer register `i`; `self.registers[i] = v` panics out of
bounds. -/
def regSet (vm : VM) (i : Nat) (v : Int) : Exec VM :=
  if i < vm.registers.length then
    .ok { vm with registers := vm.registers.set i v }
  else
    .error "register index out of bounds"

/-- Read float register `i`. -/
def fregGet (vm : VM) (i : Nat) : Exec Float :=
  match vm.float_registers.get? i with
  | some v => .ok v
  | none => .error "float register index out of bounds"

/-- Write float register `i`. -/
def fregSet (vm : VM) (i : Nat) (v : Float) : Exec VM :=
  if i < vm.float_registers.length then
    .ok { vm with float_registers := vm.float_registers.set i v }
  else
    .error "float register index out of bounds"

/-- `Vec::resize(new_len, value)`: truncates when shrinking, pads with
`value` when growing. -/
def listResize (l : List Nat) (newLen : Nat) (value : Nat) : List Nat :=
  if newLen ≤ l.length then l.take newLen
  else l ++ List.replicate (newLen - l.length) value

/-- `f64::EPSILON`, i.e. `2 ^ (-52)` exactly (the division by a power of
two is exact in binary64). -/
def F64_EPSILON : Float := 1.0 / 4503599627370496.0

/-- Truncation of a float toward zero (`f64::trunc`). -/
def floatTrunc (x : Float) : Float :=
  if 0.0 ≤ x then x.floor else x.ceil

/-- Models Rust's `%` on `f64` (`fmod`): remainder of truncated division. -/
def floatRem (a b : Float) : Float :=
  a - floatTrunc (a / b) * b

/-- Rust's saturating `as usize` cast applied to an `f64` value: NaN maps
to 0, the value is truncated toward zero and clamped to the `usize`
range. -/
def usizeOfFloat (f : Float) : Nat :=
  if f.isNaN then 0
  else if f ≤ 0.0 then 0
  else if (18446744073709551615.0 : Float) ≤ f then 2 ^ 64 - 1
  else f.toUInt64.toNat

/-- The zero-scan of the `PRTS` arm of `src/vm.rs`: starting at index `i`
of the read-only buffer, advance until a zero byte; running past the end
of the buffer panics (`slice[ending_offset]`).  The `fuel` argument makes
the recursion structural; it is called with more fuel than the scan can
consume, so the fuel case is unreachable. -/
def scanForZero (l : List Nat) : Nat → Nat → Exec Nat
  | _, 0 => .error "ro_data index out of bounds"
  | i, fuel + 1 =>
    match l.get? i with
    | none => .error "ro_data index out of bounds"
    | some 0 => .ok i
    | some _ => scanForZero l (i + 1) fuel

/-- `VM::execute_instruction` of `src/vm.rs`.  Returns the updated state
and `some code` when the step decided the run is over (`pc` past the end,
`HLT`, `IGL`), `none` otherwise.  Rust evaluates the right-hand side of an
assignment before the place expression, so in the ALU arms the division-
by-zero check happens before the destination operand byte is fetched. -/
def execute_instruction (vm : VM) : Exec (VM × Option Nat) :=
  if vm.program.length ≤ vm.pc then .ok (vm, some 1)
  else do
    let (op, vm) ← decode_opcode vm
    match op with
    | .LOAD => do
      let (r, vm) ← next_8_bits vm
      let (number, vm) ← next_16_bits vm
      -- `number as i32` zero-extends the unsigned 16-bit read
      let vm ← regSet vm r (number : Int)
      .ok (vm, none)
    | .ADD => do
      let (b1, vm) ← next_8_bits vm
      let r1 ← regGet vm b1
      let (b2, vm) ← next_8_bits vm
      let r2 ← regGet vm b2
      let (b3, vm) ← next_8_bits vm
      let vm ← regSet vm b3 (wrap32 (r1 + r2))
      .ok (vm, none)
    | .SUB => do
      let (b1, vm) ← next_8_bits vm
      let r1 ← regGet vm b1
      let (b2, vm) ← next_8_bits vm
      let r2 ← regGet vm b2
      let (b3, vm) ← next_8_bits vm
      let vm ← regSet vm b3 (wrap32 (r1 - r2))
      .ok (vm, none)
    | .MUL => do
      let (b1, vm) ← next_8_bits vm
      let r1 ← regGet vm b1
      let (b2, vm) ← next_8_bits vm
      let r2 ← regGet vm b2
      let (b3, vm) ← next_8_bits vm
      let vm ← regSet vm b3 (wrap32 (r1 * r2))
      .ok (vm, none)
    | .DIV => do
      let (b1, vm) ← next_8_bits vm
      let r1 ← regGet vm b1
      let (b2, vm) ← next_8_bits vm
      let r2 ← regGet vm b2
      if r2 = 0 then .error "attempt to divide by zero"
      else do
        let (b3, vm) ← next_8_bits vm
        let vm ← regSet vm b3 (r1.tdiv r2)
        .ok ({ vm with reminder := usizeOfI32 (r1.tmod r2) }, none)
    | .HLT => .ok (vm, some 0)
    | .IGL => .ok (vm, some 1)
    | .JMP => do
      let (b, vm) ← next_8_bits vm
      let target ← regGet vm b
      .ok ({ vm with pc := usizeOfI32 target }, none)
    | .JMPF => do
      let (b, vm) ← next_8_bits vm
      let value ← regGet vm b
      .ok ({ vm with pc := (vm.pc + usizeOfI32 value) % 2 ^ 64 }, none)
    | .JMPB => do
      let (b, vm) ← next_8_bits vm
      let value ← regGet vm b
      .ok ({ vm with pc := (vm.pc + 2 ^ 64 - usizeOfI32 value % 2 ^ 64) % 2 ^ 64 }, none)
    | .EQ => do
      let (b1, vm) ← next_8_bits vm
      let r1 ← regGet vm b1
      let (b2, vm) ← next_8_bits vm
      let r2 ← regGet vm b2
      let vm := { vm with equal_flag := r1 = r2 }
      let (_, vm) ← next_8_bits vm
      .ok (vm, none)
    | .NEQ => do
      let (b1, vm) ← next_8_bits vm
      let r1 ← regGet vm b1
      let (b2, vm) ← next_8_bits vm
      let r2 ← regGet vm b2
      let vm := { vm with equal_flag := r1 ≠ r2 }
      let (_, vm) ← next_8_bits vm
      .ok (vm, none)
    | .GTE => do
      let (b1, vm) ← next_8_bits vm
      let r1 ← regGet vm b1
      let (b2, vm) ← next_8_bits vm
      let r2 ← regGet vm b2
      let vm := { vm with equal_flag := r2 ≤ r1 }
      let (_, vm) ← next_8_bits vm
      .ok (vm, none)
    | .LTE => do
      let (b1, vm) ← next_8_bits vm
      let r1 ← regGet vm b1
      let (b2, vm) ← next_8_bits vm
      let r2 ← regGet vm b2
      let vm := { vm with equal_flag := r1 ≤ r2 }
      let (_, vm) ← next_8_bits vm
      .ok (vm, none)
    | .LT => do
      let (b1, vm) ← next_8_bits vm
      let r1 ← regGet vm b1
      let (b2, vm) ← next_8_bits vm
      let r2 ← regGet vm b2
      let vm := { vm with equal_flag := r1 < r2 }
      let (_, vm) ← next_8_bits vm
      .ok (vm, none)
    | .GT => do
      let (b1, vm) ← next_8_bits vm
      let r1 ← regGet vm b1
      let (b2, vm) ← next_8_bits vm
      let r2 ← regGet vm b2
      let vm := { vm with equal_flag := r2 < r1 }
      let (_, vm) ← next_8_bits vm
      .ok (vm, none)
    | .JMPE => do
      let (b, vm) ← next_8_bits vm
      let target ← regGet vm b
      if vm.equal_flag then
        .ok ({ vm with pc := usizeOfI32 target }, none)
      else
        -- the source falls through without consuming further bytes
        .ok (vm, none)
    | .ALOC => do
      let (b, vm) ← next_8_bits vm
      let bytes ← regGet vm b
      let newEnd := wrap32 (i32OfUsize vm.heap.length + bytes)
      .ok ({ vm with heap := listResize vm.heap (usizeOfI32 newEnd) 0 }, none)
    | .PRTS => do
      let (startingOffset, vm) ← next_16_bits vm
      -- the scan panics when it runs past the end without a zero byte;
      -- the UTF-8 check and the printing are side effects on stdout only
      let _ ← scanForZero vm.ro_data startingOffset (vm.ro_data.length + 1)
      .ok (vm, none)
    | .LOADF64 => do
      let (r, vm) ← next_8_bits vm
      let (number, vm) ← next_16_bits vm
      let vm ← fregSet vm r (Float.ofNat number)
      .ok (vm, none)
    | .ADDF64 => do
      let (b1, vm) ← next_8_bits vm
      let r1 ← fregGet vm b1
      let (b2, vm) ← next_8_bits vm
      let r2 ← fregGet vm b2
      let (b3, vm) ← next_8_bits vm
      let vm ← fregSet vm b3 (r1 + r2)
      .ok (vm, none)
    | .SUBF64 => do
      let (b1, vm) ← next_8_bits vm
      let r1 ← fregGet vm b1
      let (b2, vm) ← next_8_bits vm
      let r2 ← fregGet vm b2
      let (b3, vm) ← next_8_bits vm
      let vm ← fregSet vm b3 (r1 - r2)
      .ok (vm, none)
    | .MULF64 => do
      let (b1, vm) ← next_8_bits vm
      let r1 ← fregGet vm b1
      let (b2, vm) ← next_8_bits vm
      let r2 ← fregGet vm b2
      let (b3, vm) ← next_8_bits vm
      let vm ← fregSet vm b3 (r1 * r2)
      .ok (vm, none)
    | .DIVF64 => do
      let (b1, vm) ← next_8_bits vm
      let r1 ← fregGet vm b1
      let (b2, vm) ← next_8_bits vm
      let r2 ← fregGet vm b2
      let (b3, vm) ← next_8_bits vm
      let vm ← fregSet vm b3 (r1 / r2)
      .ok ({ vm with reminder := usizeOfFloat (floatRem r1 r2) }, none)
    | .EQF64 => do
      let (b1, vm) ← next_8_bits vm
      let r1 ← fregGet vm b1
      let (b2, vm) ← next_8_bits vm
      let r2 ← fregGet vm b2
      let vm := { vm with equal_flag := (r1 - r2).abs < F64_EPSILON }
      let (_, vm) ← next_8_bits vm
      .ok (vm, none)
    | .NEQF64 => do
      let (b1, vm) ← next_8_bits vm
      let r1 ← fregGet vm b1
      let (b2, vm) ← next_8_bits vm
      let r2 ← fregGet vm b2
      let vm := { vm with equal_flag := ¬((r1 - r2).abs < F64_EPSILON) }
      let (_, vm) ← next_8_bits vm
      .ok (vm, none)
    | .GTF64 => do
      let (b1, vm) ← next_8_bits vm
      let r1 ← fregGet vm b1
      let (b2, vm) ← next_8_bits vm
      let r2 ← fregGet vm b2
      let vm := { vm with equal_flag := F64_EPSILON < (r1 - r2).abs ∧ r2 < r1 }
      let (_, vm) ← next_8_bits vm
      .ok (vm, none)
    | .GTEF64 => do
      let (b1, vm) ← next_8_bits vm
      let r1 ← fregGet vm b1
      let (b2, vm) ← next_8_bits vm
      let r2 ← fregGet vm b2
      let vm := { vm with equal_flag := F64_EPSILON ≤ (r1 - r2).abs ∧ r2 ≤ r1 }
      let (_, vm) ← next_8_bits vm
      .ok (vm, none)
    | .LTF64 => do
      let (b1, vm) ← next_8_bits vm
      let r1 ← fregGet vm b1
      let (b2, vm) ← next_8_bits vm
      let r2 ← fregGet vm b2
      let vm := { vm with equal_flag := F64_EPSILON < (r1 - r2).abs ∧ r1 < r2 }
      let (_, vm) ← next_8_bits vm
      .ok (vm, none)
    | .LTEF64 => do
      let (b1, vm) ← next_8_bits vm
      let r1 ← fregGet vm b1
      let (b2, vm) ← next_8_bits vm
      let r2 ← fregGet vm b2
      let vm := { vm with equal_flag := F64_EPSILON ≤ (r1 - r2).abs ∧ r1 ≤ r2 }
      let (_, vm) ← next_8_bits vm
      .ok (vm, none)
    | .SHL => do
      let (rn, vm) ← next_8_bits vm
      let (b, vm) ← next_8_bits vm
      let numBits := if b = 0 then 16 else b
      let v ← regGet vm rn
      -- `wrapping_shl` masks the shift amount by 31
      let vm ← regSet vm rn (wrap32 (v * 2 ^ (numBits % 32)))
      .ok (vm, none)
    | .SHR => do
      let (rn, vm) ← next_8_bits vm
      let (b, vm) ← next_8_bits vm
      let numBits := if b = 0 then 16 else b
      let v ← regGet vm rn
      -- `wrapping_shr` on `i32` is an arithmetic shift: floor division
      let vm ← regSet vm rn (v.fdiv (2 ^ (numBits % 32)))
      .ok (vm, none)
    | .AND => .ok (vm, none)
    | _ => do
      -- the catch-all arm formats `self.decode_opcode()` into its error
      -- message, advancing `pc` once more (and panicking at end of memory)
      let (_, vm) ← decode_opcode vm
      .ok (vm, none)

/-- The 4-byte magic number `PIE_HEADER_PREFIX` of `src/assembler/mod.rs`
(the constant named with PREFIX in the source). -/
def PIE_HEADER_MAGIC : List Nat := [45, 50, 49, 45]

/-- `PIE_HEADER_LENGTH` of `src/assembler/mod.rs`. -/
def PIE_HEADER_LENGTH : Nat := 64

/-- `prepend_header` of `src/assembler/mod.rs`: the magic number, zero
padding out to 64 bytes, then the given body. -/
def prepend_header (append_bytes : List Nat) : List Nat :=
  (PIE_HEADER_MAGIC ++ List.replicate (PIE_HEADER_LENGTH - PIE_HEADER_MAGIC.length) 0)
    ++ append_bytes

/-- `VM::verify_header` of `src/vm.rs`: compares `program[0..4]` with the
magic number; the slice itself panics when fewer than 4 bytes are
present. -/
def verify_header (vm : VM) : Exec Bool :=
  if vm.program.length < 4 then .error "slice index out of bounds"
  else .ok (decide (vm.program.take 4 = PIE_HEADER_MAGIC))

/-- `VM::get_starting_offset` of `src/vm.rs`: reads `program[64..68]` as a
little-endian `u32`; the slice panics when the program is shorter than 68
bytes. -/
def get_starting_offset (vm : VM) : Exec Nat :=
  if vm.program.length < 68 then .error "slice index out of bounds"
  else do
    let b0 ← progByte vm 64
    let b1 ← progByte vm 65
    let b2 ← progByte vm 66
    let b3 ← progByte vm 67
    .ok (b0 + b1 * 256 + b2 * 65536 + b3 * 16777216)

/-- The `while is_done.is_none()` loop of `VM::run`; the fuel argument
makes the recursion structural and exhausting it is reported as an error,
so `Except.ok` results are exactly the terminating executions. -/
def runLoop : Nat → VM → Exec (VM × Nat)
  | 0, _ => .error "out of fuel"
  | fuel + 1, vm => do
    let (vm', done) ← execute_instruction vm
    match done with
    | some code => .ok (vm', code)
    | none => runLoop fuel vm'

/-- `VM::run` of `src/vm.rs`: appends a `Start` event, verifies the magic
number (crash event and immediate return on mismatch), sets
`pc := 64 + 4 + get_starting_offset()`, runs the loop, appends the
terminal event and returns a copy of the whole accumulated event log. -/
def VM.run (vm : VM) (fuel : Nat) : Exec (VM × List VMEventType) := do
  let vm := { vm with events := vm.events ++ [VMEventType.Start] }
  let hdr ← verify_header vm
  if hdr then do
    let off ← get_starting_offset vm
    let vm := { vm with pc := 64 + 4 + off }
    let (vm, code) ← runLoop fuel vm
    let vm := { vm with events := vm.events ++ [VMEventType.GracefulStop code] }
    .ok (vm, vm.events)
  else do
    let vm := { vm with events := vm.events ++ [VMEventType.Crash 1] }
    .ok (vm, vm.events)

/-! ### Assembler data model (`src/assembler/mod.rs`, `symbols.rs`,
`instruction_parsers.rs`, `program_parser.rs`) -/

/-- Alias so that the `Float` constructor of `Token` can mention the
builtin float type. -/
abbrev F64 := Float

/-- The `Token` enumeration of `src/assembler/mod.rs`.  The `Factor` and
`Float` variants are referenced by `operand_parser.rs` (`float_operand`)
although the snapshot of `mod.rs` omits them from the declaration. -/
inductive Token where
  | Op : Opcode → Token
  | Register : Nat → Token
  | IntegerOperand : Int → Token
  | LabelDeclaration : String → Token
  | LabelUsage : String → Token
  | Directive : String → Token
  | IrString : String → Token
  | Comment : Token
  | Factor : Token → Token
  | Float : F64 → Token

/-- `SymbolType` of `src/assembler/symbols.rs`. -/
inductive SymbolType where
  | Label : SymbolType
  | Integer : SymbolType
  | IrString : SymbolType
deriving DecidableEq, Repr

/-- `Symbol` of `src/assembler/symbols.rs`. -/
structure Symbol where
  name : String
  symbol_type : SymbolType
  offset : Option Nat
deriving DecidableEq, Repr

/-- `Symbol::new`. -/
def Symbol.new (name : String) (symbol_type : SymbolType) : Symbol :=
  { name := name, symbol_type := symbol_type, offset := none }

/-- `Symbol::new_with_offset`. -/
def Symbol.new_with_offset (name : String) (symbol_type : SymbolType) (offset : Nat) : Symbol :=
  { name := name, symbol_type := symbol_type, offset := some offset }

/-- `SymbolTable` of `src/assembler/symbols.rs`. -/
structure SymbolTable where
  symbols : List Symbol
deriving DecidableEq, Repr

/-- `SymbolTable::new`. -/
def SymbolTable.new : SymbolTable := { symbols := [] }

/-- `SymbolTable::add_symbol`: pushes at the end. -/
def SymbolTable.add_symbol (st : SymbolTable) (s : Symbol) : SymbolTable :=
  { symbols := st.symbols ++ [s] }

/-- `SymbolTable::has_symbol`. -/
def SymbolTable.has_symbol (st : SymbolTable) (s : String) : Bool :=
  st.symbols.any (fun symbol => symbol.name == s)

/-- Helper for `set_symbol_offset`: `iter_mut().any(..)` mutates the first
matching symbol and stops there. -/
def setOffsetFirst (s : String) (offset : Nat) : List Symbol → List Symbol
  | [] => []
  | symbol :: rest =>
    if symbol.name = s then { symbol with offset := some offset } :: rest
    else symbol :: setOffsetFirst s offset rest

/-- `SymbolTable::set_symbol_offset`. -/
def SymbolTable.set_symbol_offset (st : SymbolTable) (s : String) (offset : Nat) : SymbolTable :=
  { symbols := setOffsetFirst s offset st.symbols }

/-- `SymbolTable::symbol_value`: the offset of the first symbol with the
given name. -/
def SymbolTable.symbol_value (st : SymbolTable) (s : String) : Option Nat :=
  match st.symbols.find? (fun symbol => symbol.name == s) with
  | some symbol => symbol.offset
  | none => none

/-- `AssemblerInstruction` of `src/assembler/instruction_parsers.rs`. -/
structure AssemblerInstruction where
  opcode : Option Token
  label : Option Token
  directive : Option Token
  operand1 : Option Token
  operand2 : Option Token
  operand3 : Option Token

/-- `AssemblerInstruction::is_label`. -/
def AssemblerInstruction.is_label (i : AssemblerInstruction) : Bool :=
  i.label.isSome

/-- `AssemblerInstruction::is_opcode`. -/
def AssemblerInstruction.is_opcode (i : AssemblerInstruction) : Bool :=
  i.opcode.isSome

/-- `AssemblerInstruction::is_directive`. -/
def AssemblerInstruction.is_directive (i : AssemblerInstruction) : Bool :=
  i.directive.isSome

/-- `AssemblerInstruction::has_operands`. -/
def AssemblerInstruction.has_operands (i : AssemblerInstruction) : Bool :=
  i.operand1.isSome || i.operand2.isSome || i.operand3.isSome

/-- `AssemblerInstruction::get_label_name`. -/
def AssemblerInstruction.get_label_name (i : AssemblerInstruction) : Option String :=
  match i.label with
  | some (Token.LabelDeclaration name) => some name
  | _ => none

/-- `AssemblerInstruction::get_directive_name`. -/
def AssemblerInstruction.get_directive_name (i : AssemblerInstruction) : Option String :=
  match i.directive with
  | some (Token.Directive name) => some name
  | _ => none

/-- `AssemblerInstruction::get_string_constant`. -/
def AssemblerInstruction.get_string_constant (i : AssemblerInstruction) : Option String :=
  match i.operand1 with
  | some (Token.IrString name) => some name
  | _ => none

/-- `AssemblerInstruction::extract_operand` of
`src/assembler/instruction_parsers.rs`.  A register contributes its index
byte; an integer operand is truncated with `as u16` and pushed high byte
first; a label usage found in the symbol table contributes its offset's
low 16 bits, high byte first (each `as u8` push truncates to one byte);
an absent label or any other token kind contributes nothing. -/
def extract_operand (t : Token) (results : List Nat) (symbols : SymbolTable) : List Nat :=
  match t with
  | Token.Register reg_num => results ++ [reg_num]
  | Token.IntegerOperand value =>
    let converted := (value.emod 65536).toNat
    results ++ [(converted / 256) % 256, converted % 256]
  | Token.LabelUsage name =>
    match symbols.symbol_value name with
    | some value => results ++ [(value / 256) % 256, value % 256]
    | none => results
  | _ => results

/-- The `while 0 < results.len() && results.len() < 4` zero-padding loop
at the end of `to_bytes`. -/
def padTo4 (results : List Nat) : List Nat :=
  if 0 < results.length ∧ results.length < 4 then
    results ++ List.replicate (4 - results.length) 0
  else results

/-- `AssemblerInstruction::to_bytes` of
`src/assembler/instruction_parsers.rs`. -/
def AssemblerInstruction.to_bytes (i : AssemblerInstruction) (symbols : SymbolTable) : List Nat :=
  let results : List Nat :=
    match i.opcode with
    | some (Token.Op code) => [code.toByte]
    | _ => []
  let results :=
    match i.operand1 with
    | some t => extract_operand t results symbols
    | none => results
  let results :=
    match i.operand2 with
    | some t => extract_operand t results symbols
    | none => results
  let results :=
    match i.operand3 with
    | some t => extract_operand t results symbols
    | none => results
  padTo4 results

/-- `Program` of `src/assembler/program_parser.rs`. -/
structure Program where
  instructions : List AssemblerInstruction

/-- Modelled from the spec: the `AssemblerError` enumeration of
`src/assembler/assembler_errors.rs`, whose source file is missing from
the snapshot; §7 of the spec lists exactly this taxonomy and
`src/assembler/mod.rs` constructs exactly these variants. -/
inductive AssemblerError where
  | ParseError : String → AssemblerError
  | NoSegmentDeclarationFound : Nat → AssemblerError
  | StringConstantDeclaredWithoutLabel : Nat → AssemblerError
  | SymbolAlreadyDeclared : AssemblerError
  | UnknownDirectiveFound : String → AssemblerError
  | InsufficientSections : AssemblerError
deriving DecidableEq, Repr

/-- `AssemblerPhase` of `src/assembler/mod.rs`. -/
inductive AssemblerPhase where
  | First : AssemblerPhase
  | Second : AssemblerPhase
deriving DecidableEq, Repr

/-- `AssemblerSection` of `src/assembler/mod.rs`. -/
inductive AssemblerSection where
  | Data : Option Nat → AssemblerSection
  | Code : Option Nat → AssemblerSection
  | Unknown : AssemblerSection
deriving DecidableEq, Repr

/-- `impl From<&str> for AssemblerSection`. -/
def AssemblerSection.fromName (value : String) : AssemblerSection :=
  match value with
  | "data" => AssemblerSection.Data none
  | "code" => AssemblerSection.Code none
  | _ => AssemblerSection.Unknown

/-- The `Assembler` state of `src/assembler/mod.rs`. -/
structure Assembler where
  phase : AssemblerPhase
  symbols : SymbolTable
  ro : List Nat
  bytecode : List Nat
  ro_offset : Nat
  sections : List AssemblerSection
  current_section : Option AssemblerSection
  current_instruction : Nat
  errors : List AssemblerError
deriving DecidableEq, Repr

/-- `Assembler::new`. -/
def Assembler.new : Assembler :=
  { phase := AssemblerPhase.First
    symbols := SymbolTable.new
    ro := []
    bytecode := []
    ro_offset := 0
    sections := []
    current_section := none
    current_instruction := 0
    errors := [] }

/-- `Assembler::process_label_declaration` of `src/assembler/mod.rs`. -/
def process_label_declaration (a : Assembler) (i : AssemblerInstruction) : Assembler :=
  match i.get_label_name with
  | none =>
    { a with errors := a.errors
        ++ [AssemblerError.StringConstantDeclaredWithoutLabel a.current_instruction] }
  | some name =>
    if a.symbols.has_symbol name then
      { a with errors := a.errors ++ [AssemblerError.SymbolAlreadyDeclared] }
    else
      { a with symbols := a.symbols.add_symbol (Symbol.new name SymbolType.Label) }

/-- UTF-8 bytes of a string (`str::as_bytes`). -/
def strBytes (s : String) : List Nat :=
  s.toUTF8.toList.map UInt8.toNat

/-- `Assembler::handle_asciiz` of `src/assembler/mod.rs`: only meaningful
in the first phase; sets the label's symbol offset to the current
read-only offset, then appends the string bytes and a zero terminator. -/
def handle_asciiz (a : Assembler) (i : AssemblerInstruction) : Assembler :=
  if a.phase ≠ AssemblerPhase.First then a
  else
    match i.get_string_constant with
    | some s =>
      match i.get_label_name with
      | some name =>
        let a := { a with symbols := a.symbols.set_symbol_offset name a.ro_offset }
        { a with ro := a.ro ++ strBytes s ++ [0],
                 ro_offset := a.ro_offset + (strBytes s).length + 1 }
      | none => a
    | none => a

/-- `Assembler::process_section_header` of `src/assembler/mod.rs`: unknown
names are ignored with a warning; known sections are appended to the
section list (with multiplicity) and made current. -/
def process_section_header (a : Assembler) (header_name : String) : Assembler :=
  let new_section := AssemblerSection.fromName header_name
  if new_section = AssemblerSection.Unknown then a
  else
    { a with sections := a.sections ++ [new_section],
             current_section := some new_section }

/-- `Assembler::process_directive` of `src/assembler/mod.rs`. -/
def process_directive (a : Assembler) (i : AssemblerInstruction) : Assembler :=
  match i.get_directive_name with
  | none => a
  | some directive_name =>
    if i.has_operands then
      match directive_name with
      | "asciiz" => handle_asciiz a i
      | _ =>
        { a with errors := a.errors
            ++ [AssemblerError.UnknownDirectiveFound directive_name] }
    else
      process_section_header a directive_name

/-- One iteration of the `process_first_phase` loop of
`src/assembler/mod.rs`: labels are processed only when a section is
already open, directives are processed, and the instruction counter is
advanced. -/
def firstPhaseStep (a : Assembler) (i : AssemblerInstruction) : Assembler :=
  let a :=
    if i.is_label then
      if a.current_section.isSome then process_label_declaration a i
      else
        { a with errors := a.errors
            ++ [AssemblerError.NoSegmentDeclarationFound a.current_instruction] }
    else a
  let a := if i.is_directive then process_directive a i else a
  { a with current_instruction := a.current_instruction + 1 }

/-- `Assembler::process_first_phase` of `src/assembler/mod.rs`. -/
def process_first_phase (a : Assembler) (p : Program) : Assembler :=
  { p.instructions.foldl firstPhaseStep a with phase := AssemblerPhase.Second }

/-- One iteration of the `process_second_phase` loop of
`src/assembler/mod.rs`. -/
def secondPhaseStep : Assembler × List Nat → AssemblerInstruction → Assembler × List Nat
  | (a, program), i =>
    let program := if i.is_opcode then program ++ i.to_bytes a.symbols else program
    let a := if i.is_directive then process_directive a i else a
    ({ a with current_instruction := a.current_instruction + 1 }, program)

/-- `Assembler::process_second_phase` of `src/assembler/mod.rs`: resets
the instruction counter and encodes every opcode instruction, re-running
directive processing (a no-op for `asciiz` in the second phase). -/
def process_second_phase (a : Assembler) (p : Program) : Assembler × List Nat :=
  p.instructions.foldl secondPhaseStep ({ a with current_instruction := 0 }, [])

/-- `Assembler::write_pie_header` of `src/assembler/mod.rs`: the magic
number, then `self.ro.len() as u32` written little-endian, then zero
padding out to the 64-byte header length. -/
def write_pie_header (a : Assembler) : List Nat :=
  let n := a.ro.length % 2 ^ 32
  let header := PIE_HEADER_MAGIC
    ++ [n % 256, (n / 256) % 256, (n / 65536) % 256, (n / 16777216) % 256]
  header ++ List.replicate (PIE_HEADER_LENGTH - header.length) 0

/-- The body of `Assembler::assemble` of `src/assembler/mod.rs` after a
successful parse: run the first pass; abort with the accumulated errors
when any exist; abort with `InsufficientSections` when the section list
does not have length exactly 2; otherwise run the second pass and prepend
the header. -/
def assembleProgram (a : Assembler) (p : Program) : Except (List AssemblerError) (List Nat) :=
  let a1 := process_first_phase a p
  if a1.errors ≠ [] then .error a1.errors
  else if a1.sections.length ≠ 2 then
    .error (a1.errors ++ [AssemblerError.InsufficientSections])
  else
    let (a2, body) := process_second_phase a1 p
    .ok (write_pie_header a2 ++ body)

/-! ### The nom parser combinators (`src/assembler/*_parsers.rs`,
`operand_parser.rs`, `register_parser.rs`, `program_parser.rs`)

A parser maps the remaining input to one of three outcomes, mirroring how
the Rust code can leave a nom combinator: `perr` is a nom parse error
(`Err`), `pdie` is a Rust panic raised inside a parser closure (the
`unwrap()` calls on `parse::<i32>` / `parse::<u8>`), and `pok rest value`
is success with the unconsumed remainder.  nom's `alt` backtracks to the
original input on `perr`; a panic aborts everything.

Where a source parser is a nom pipeline
(`preceded(multispace0, terminated(…, alt((multispace0, line_ending,
eof))))`), the embedding inlines the pipeline: `multispace0` is
`dropWhile isMultispace` (it always succeeds), `digit1` / `alpha1` /
`alphanumeric1` are `takeWhile` of the corresponding ASCII class plus a
non-emptiness check, and `tag` is a literal prefix match.  The
`alt((multispace0, line_ending, eof))` terminator always succeeds via its
first branch, consuming trailing whitespace. -/

/-- Outcome of running a parser: nom error, Rust panic, or success with
the unconsumed remainder. -/
inductive PResult (α : Type) where
  | perr : PResult α
  | pdie : PResult α
  | pok : List Char → α → PResult α
deriving DecidableEq, Repr

/-- The whitespace class of nom's `multispace0`: space, tab, carriage
return, line feed. -/
def isMultispace (c : Char) : Bool :=
  c == ' ' || c == '\t' || c == '\r' || c == '\n'

/-- Numeric value of a decimal digit string (the `parse::<…>` calls). -/
def digitsToNat (ds : List Char) : Nat :=
  ds.foldl (fun acc c => acc * 10 + (c.toNat - 48)) 0

/-- The single-quote character, used by `ir_string_single_quota`. -/
def squote : Char := Char.ofNat 39

/-- `integer_operand` of `src/assembler/operand_parser.rs`:
`preceded(multispace0, terminated(map_res(preceded(tag("#"), digit1), …),
alt((multispace0, line_ending, eof))))`.  There is no sign handling: after
`#`, `digit1` demands a digit.  The closure converts with
`reg_num.parse::<i32>().unwrap()`, which panics above `i32::MAX`. -/
def integer_operand : List Char → PResult Token := fun input =>
  match input.dropWhile isMultispace with
  | '#' :: rest =>
    let ds := rest.takeWhile Char.isDigit
    if ds.isEmpty then .perr
    else if 2 ^ 31 ≤ digitsToNat ds then .pdie
    else
      .pok ((rest.drop ds.length).dropWhile isMultispace)
        (Token.IntegerOperand (digitsToNat ds))
  | _ => .perr

/-- `float_operand` of `src/assembler/operand_parser.rs`:
after `#`, `tuple((opt(char('-')), digit1, char('.'), digit1))`; the
unsigned decimal text is converted to `f64` (modelled with
`Float.ofScientific`) and negated when the sign was present. -/
def float_operand : List Char → PResult Token := fun input =>
  match input.dropWhile isMultispace with
  | '#' :: rest =>
    let (sign, rest1) :=
      match rest with
      | '-' :: r => (true, r)
      | _ => (false, rest)
    let left := rest1.takeWhile Char.isDigit
    if left.isEmpty then .perr
    else
      match rest1.drop left.length with
      | '.' :: rest2 =>
        let right := rest2.takeWhile Char.isDigit
        if right.isEmpty then .perr
        else
          let converted := Float.ofScientific (digitsToNat (left ++ right)) true right.length
          let value := if sign then -converted else converted
          .pok ((rest2.drop right.length).dropWhile isMultispace)
            (Token.Factor (Token.Float value))
      | _ => .perr
  | _ => .perr

/-- `ir_string_single_quota` of `src/assembler/operand_parser.rs`:
`delimited(tag("'"), take_while(c != '\x27'), tag("'"))` between
`multispace0` and the always-successful terminator. -/
def ir_string_single_quota : List Char → PResult Token := fun input =>
  match input.dropWhile isMultispace with
  | c :: rest =>
    if c = squote then
      let content := rest.takeWhile (fun d => d ≠ squote)
      match rest.drop content.length with
      | d :: rest2 =>
        if d = squote then
          .pok (rest2.dropWhile isMultispace) (Token.IrString (String.mk content))
        else .perr
      | [] => .perr
    else .perr
  | [] => .perr

/-- `ir_string_double_quota` of `src/assembler/operand_parser.rs`. -/
def ir_string_double_quota : List Char → PResult Token := fun input =>
  match input.dropWhile isMultispace with
  | '"' :: rest =>
    let content := rest.takeWhile (fun d => d ≠ '"')
    match rest.drop content.length with
    | '"' :: rest2 =>
      .pok (rest2.dropWhile isMultispace) (Token.IrString (String.mk content))
    | _ => .perr
  | _ => .perr

/-- `ir_string` of `src/assembler/operand_parser.rs`: single-quoted, then
double-quoted. -/
def ir_string (input : List Char) : PResult Token :=
  match ir_string_single_quota input with
  | .perr => ir_string_double_quota input
  | r => r

/-- `register` of `src/assembler/register_parser.rs`:
`preceded(multispace0, map_res(preceded(tag("$"), digit1), …))`; the
closure converts with `parse::<u8>().unwrap()`, which panics above 255.
There is no trailing-whitespace consumption. -/
def register : List Char → PResult Token := fun input =>
  match input.dropWhile isMultispace with
  | '$' :: rest =>
    let ds := rest.takeWhile Char.isDigit
    if ds.isEmpty then .perr
    else if 256 ≤ digitsToNat ds then .pdie
    else .pok (rest.drop ds.length) (Token.Register (digitsToNat ds))
  | _ => .perr

/-- `label_usage` of `src/assembler/label_parsers.rs`:
`preceded(multispace0, map(tuple((char('@'), alphanumeric1,
opt(multispace0))), …))`. -/
def label_usage : List Char → PResult Token := fun input =>
  match input.dropWhile isMultispace with
  | '@' :: rest =>
    let name := rest.takeWhile Char.isAlphanum
    if name.isEmpty then .perr
    else .pok ((rest.drop name.length).dropWhile isMultispace)
      (Token.LabelUsage (String.mk name))
  | _ => .perr

/-- `label_declaration` of `src/assembler/label_parsers.rs`:
`preceded(multispace0, map_res(tuple((alphanumeric1, tag(":"))), …))`; no
trailing-whitespace consumption. -/
def label_declaration : List Char → PResult Token := fun input =>
  let input1 := input.dropWhile isMultispace
  let name := input1.takeWhile Char.isAlphanum
  if name.isEmpty then .perr
  else
    match input1.drop name.length with
    | ':' :: rest => .pok rest (Token.LabelDeclaration (String.mk name))
    | _ => .perr

/-- `operand` of `src/assembler/operand_parser.rs`: `alt((integer_operand,
float_operand, label_usage, register, ir_string))`. -/
def operand (input : List Char) : PResult Token :=
  match integer_operand input with
  | .perr =>
    match float_operand input with
    | .perr =>
      match label_usage input with
      | .perr =>
        match register input with
        | .perr => ir_string input
        | r => r
      | r => r
    | r => r
  | r => r

/-- `opcode` of `src/assembler/opcode_parsers.rs`: `map_res(alpha1, …)`
with the mnemonic lowercased and looked up; note that it performs no
whitespace skipping of its own. -/
def opcode : List Char → PResult Token := fun input =>
  let s := input.takeWhile Char.isAlpha
  if s.isEmpty then .perr
  else
    .pok (input.drop s.length)
      (Token.Op (Opcode.fromMnemonic (String.mk (s.map Char.toLower))))

/-- `directive_declaration` of `src/assembler/directive_parsers.rs`:
`preceded(multispace0, map_res(preceded(tag("."), alpha1), …))`. -/
def directive_declaration : List Char → PResult Token := fun input =>
  match input.dropWhile isMultispace with
  | '.' :: rest =>
    let name := rest.takeWhile Char.isAlpha
    if name.isEmpty then .perr
    else .pok (rest.drop name.length) (Token.Directive (String.mk name))
  | _ => .perr

/-- `opt(p)`: on a nom error, succeed with `none` consuming nothing; a
panic propagates. -/
def optP {α : Type} (p : List Char → PResult α) : List Char → PResult (Option α) :=
  fun input =>
    match p input with
    | .perr => .pok input none
    | .pdie => .pdie
    | .pok rest a => .pok rest (some a)

/-- `instruction_combined` of `src/assembler/instruction_parsers.rs`:
`preceded(multispace0, terminated(map(tuple((opt(label_declaration),
opcode, opt(operand), opt(operand), opt(operand))), …),
alt((multispace0, line_ending, eof))))`. -/
def instruction_combined : List Char → PResult AssemblerInstruction := fun input =>
  let input1 := input.dropWhile isMultispace
  match optP label_declaration input1 with
  | .perr => .perr
  | .pdie => .pdie
  | .pok r1 l =>
    match opcode r1 with
    | .perr => .perr
    | .pdie => .pdie
    | .pok r2 o =>
      match optP operand r2 with
      | .perr => .perr
      | .pdie => .pdie
      | .pok r3 o1 =>
        match optP operand r3 with
        | .perr => .perr
        | .pdie => .pdie
        | .pok r4 o2 =>
          match optP operand r4 with
          | .perr => .perr
          | .pdie => .pdie
          | .pok r5 o3 =>
            .pok (r5.dropWhile isMultispace)
              { opcode := some o, label := l, directive := none,
                operand1 := o1, operand2 := o2, operand3 := o3 }

/-- `instruction` of `src/assembler/instruction_parsers.rs`:
`alt((instruction_combined,))`. -/
def instruction (input : List Char) : PResult AssemblerInstruction :=
  instruction_combined input

/-- `directive_combined` of `src/assembler/directive_parsers.rs`. -/
def directive_combined : List Char → PResult AssemblerInstruction := fun input =>
  let input1 := input.dropWhile isMultispace
  match optP label_declaration input1 with
  | .perr => .perr
  | .pdie => .pdie
  | .pok r1 l =>
    match directive_declaration r1 with
    | .perr => .perr
    | .pdie => .pdie
    | .pok r2 name =>
      match optP operand r2 with
      | .perr => .perr
      | .pdie => .pdie
      | .pok r3 o1 =>
        match optP operand r3 with
        | .perr => .perr
        | .pdie => .pdie
        | .pok r4 o2 =>
          match optP operand r4 with
          | .perr => .perr
          | .pdie => .pdie
          | .pok r5 o3 =>
            .pok (r5.dropWhile isMultispace)
              { opcode := none, label := l, directive := some name,
                operand1 := o1, operand2 := o2, operand3 := o3 }

/-- `directive` of `src/assembler/directive_parsers.rs`:
`alt((directive_combined,))`. -/
def directive (input : List Char) : PResult AssemblerInstruction :=
  directive_combined input

/-- One iteration choice of the program parser:
`alt((instruction, directive))`. -/
def instrOrDirective (input : List Char) : PResult AssemblerInstruction :=
  match instruction input with
  | .perr => directive input
  | r => r

/-- The repetition of nom's `many1` after the first success: keep applying
the parser until it fails, accumulating results in order.  The fuel makes
the recursion structural; every success of `instrOrDirective` consumes at
least one character, so `input.length + 1` units never run out. -/
def many1Iter {α : Type} (p : List Char → PResult α) :
    Nat → List Char → List α → PResult (List α)
  | 0, input, acc => .pok input acc
  | fuel + 1, input, acc =>
    match p input with
    | .pdie => .pdie
    | .perr => .pok input acc
    | .pok rest a => many1Iter p fuel rest (acc ++ [a])

/-- nom's `many1(p)`: `p` must succeed at least once. -/
def many1P {α : Type} (p : List Char → PResult α) : List Char → PResult (List α) :=
  fun input =>
    match p input with
    | .pdie => .pdie
    | .perr => .perr
    | .pok rest a => many1Iter p (input.length + 1) rest [a]

/-- `program` of `src/assembler/program_parser.rs`:
`map(many1(alt((instruction, directive))), …)`. -/
def programOf (input : List Char) : PResult Program :=
  match many1P instrOrDirective input with
  | .perr => .perr
  | .pdie => .pdie
  | .pok rest instrs => .pok rest { instructions := instrs }

/-- Result of `Assembler::assemble`: a panic inside a parser closure, the
accumulated assembler errors, or the final byte artifact. -/
inductive AsmResult where
  | arPanic : AsmResult
  | arErr : List AssemblerError → AsmResult
  | arOk : List Nat → AsmResult
deriving DecidableEq, Repr

/-- `Assembler::assemble` of `src/assembler/mod.rs`: parse the raw text
(a parse failure becomes a single `ParseError`, whose message is nom's
rendering of the failure and is modelled by a placeholder string), then
run the two passes via `assembleProgram`.  The `debug_assert!` on the
unconsumed remainder is a release-mode no-op and is not modelled. -/
def assembleText (a : Assembler) (raw : String) : AsmResult :=
  match programOf raw.data with
  | .pdie => AsmResult.arPanic
  | .perr => AsmResult.arErr [AssemblerError.ParseError "parse error"]
  | .pok _rest p =>
    match assembleProgram a p with
    | .error errs => AsmResult.arErr errs
    | .ok bytes => AsmResult.arOk bytes

/-! ### Statement-side projections of the first pass

To state properties such as "the run declares the same label name twice"
the theorems below project, out of the first-pass fold, the sequence of
label names it processes.  `sectionAfter` is the effect one instruction
has on the current section (only operand-less known section headers change
it, cf. `process_directive` / `process_section_header`); `labelHere` is
the label-name event of one instruction (a label is processed only when a
section is already open, and only when the label token carries a name);
`labelEvts` strings these together. -/

/-- The current section after the first pass processes one instruction. -/
def sectionAfter (cur : Option AssemblerSection) (i : AssemblerInstruction) :
    Option AssemblerSection :=
  if i.is_directive then
    match i.get_directive_name with
    | none => cur
    | some nm =>
      if i.has_operands then cur
      else
        if AssemblerSection.fromName nm = AssemblerSection.Unknown then cur
        else some (AssemblerSection.fromName nm)
  else cur

/-- The label-declaration names the first pass processes for one
instruction (empty or a singleton). -/
def labelHere (cur : Option AssemblerSection) (i : AssemblerInstruction) : List String :=
  if i.is_label && cur.isSome then
    match i.get_label_name with
    | some n => [n]
    | none => []
  else []

/-- All label-declaration names the first pass processes, in order. -/
def labelEvts : Option AssemblerSection → List AssemblerInstruction → List String
  | _, [] => []
  | cur, i :: rest => labelHere cur i ++ labelEvts (sectionAfter cur i) rest

/-- First-occurrence accumulation: the names a symbol table holding `hv`
ends up with after the first pass processes the name sequence. -/
def addList (hv : List String) : List String → List String
  | [] => hv
  | n :: l => if n ∈ hv then addList hv l else addList (hv ++ [n]) l

/-- The number of processed names that were already present when they were
processed — each one is a `SymbolAlreadyDeclared` error. -/
def dupCount (hv : List String) : List String → Nat
  | [] => 0
  | n :: l => if n ∈ hv then dupCount hv l + 1 else dupCount (hv ++ [n]) l

/-! ### Concrete inputs used by the witnesses -/

/-- The parsed form of a bare `.data` line. -/
def dirDataI : AssemblerInstruction :=
  { opcode := none, label := none, directive := some (Token.Directive "data"),
    operand1 := none, operand2 := none, operand3 := none }

/-- The parsed form of a bare `.code` line. -/
def dirCodeI : AssemblerInstruction :=
  { opcode := none, label := none, directive := some (Token.Directive "code"),
    operand1 := none, operand2 := none, operand3 := none }

/-- The parsed form of a `hlt` line. -/
def hltI : AssemblerInstruction :=
  { opcode := some (Token.Op Opcode.HLT), label := none, directive := none,
    operand1 := none, operand2 := none, operand3 := none }

/-- A label declaration attached to an `inc $0` instruction. -/
def labelledIncI (nm : String) : AssemblerInstruction :=
  { opcode := some (Token.Op Opcode.INC),
    label := some (Token.LabelDeclaration nm), directive := none,
    operand1 := some (Token.Register 0), operand2 := none, operand3 := none }

/-- The predicate "every successful outcome of this step carries the event
log `ev`", used to prove that `execute_instruction` never touches the
log. -/
def EvPres (ev : List VMEventType) (x : Exec (VM × Option Nat)) : Prop :=
  ∀ vm' d, x = .ok (vm', d) → vm'.events = ev

/-! ## Theorems -/

/-- A successful terminal step preserves the log. -/
theorem evpres_ok {ev : List VMEventType} {vm : VM} {d : Option Nat}
    (h : vm.events = ev) : EvPres ev (.ok (vm, d)) := by
  intro vm' d' hx
  cases hx
  exact h

/-- A panic has no successful outcome. -/
theorem evpres_err {ev : List VMEventType} {s : String} :
    EvPres ev (.error s : Exec (VM × Option Nat)) := by
  intro vm' d' hx
  cases hx

/-- Binding a value-only intermediate result preserves the log when every
continuation does. -/
theorem evpres_bindval {α : Type} {ev : List VMEventType} {e : Exec α}
    {k : α → Exec (VM × Option Nat)}
    (hk : ∀ a, EvPres ev (k a)) :
    EvPres ev (Bind.bind e k) := by
  intro vm' d' hx
  cases e with
  | error s => exact absurd hx (by simp [Bind.bind, Except.bind])
  | ok a => exact hk a vm' d' (by simpa [Bind.bind, Except.bind] using hx)

/-- Binding a (value, state) intermediate result preserves the log when
the producing step does and every continuation does. -/
theorem evpres_bindst {α : Type} {ev : List VMEventType} {e : Exec (α × VM)}
    {k : α × VM → Exec (VM × Option Nat)}
    (he : ∀ a (vmi : VM), e = .ok (a, vmi) → vmi.events = ev)
    (hk : ∀ a (vmi : VM), vmi.events = ev → EvPres ev (k (a, vmi))) :
    EvPres ev (Bind.bind e k) := by
  intro vm' d' hx
  cases e with
  | error s => exact absurd hx (by simp [Bind.bind, Except.bind])
  | ok p =>
    obtain ⟨a, vmi⟩ := p
    exact hk a vmi (he a vmi rfl) vm' d' (by simpa [Bind.bind, Except.bind] using hx)

/-- Binding a state-only intermediate result preserves the log when the
producing step does and every continuation does. -/
theorem evpres_bindvm {ev : List VMEventType} {e : Exec VM}
    {k : VM → Exec (VM × Option Nat)}
    (he : ∀ vmi : VM, e = .ok vmi → vmi.events = ev)
    (hk : ∀ vmi : VM, vmi.events = ev → EvPres ev (k vmi)) :
    EvPres ev (Bind.bind e k) := by
  intro vm' d' hx
  cases e with
  | error s => exact absurd hx (by simp [Bind.bind, Except.bind])
  | ok vmi => exact hk vmi (he vmi rfl) vm' d' (by simpa [Bind.bind, Except.bind] using hx)

/-- `decode_opcode` leaves the event log unchanged. -/
theorem decode_state {vm : VM} {op : Opcode} {vmi : VM}
    (h : decode_opcode vm = .ok (op, vmi)) : vmi.events = vm.events := by
  unfold decode_opcode at h
  cases hg : vm.program.get? vm.pc <;> rw [progByte, hg] at h
  · exact absurd h (by simp [Bind.bind, Except.bind, bind])
  · simp only [bind, Bind.bind, Except.bind] at h
    cases h
    rfl

/-- `next_8_bits` leaves the event log unchanged. -/
theorem next8_state {vm : VM} {b : Nat} {vmi : VM}
    (h : next_8_bits vm = .ok (b, vmi)) : vmi.events = vm.events := by
  unfold next_8_bits at h
  cases hg : vm.program.get? vm.pc <;> rw [progByte, hg] at h
  · exact absurd h (by simp [Bind.bind, Except.bind, bind])
  · simp only [bind, Bind.bind, Except.bind] at h
    cases h
    rfl

/-- `next_16_bits` leaves the event log unchanged. -/
theorem next16_state {vm : VM} {b : Nat} {vmi : VM}
    (h : next_16_bits vm = .ok (b, vmi)) : vmi.events = vm.events := by
  unfold next_16_bits at h
  cases hg : vm.program.get? vm.pc <;> rw [progByte, hg] at h
  · exact absurd h (by simp [Bind.bind, Except.bind, bind])
  · cases hg2 : vm.program.get? (vm.pc + 1) <;> rw [progByte, hg2] at h
    · exact absurd h (by simp [Bind.bind, Except.bind, bind])
    · simp only [bind, Bind.bind, Except.bind] at h
      cases h
      rfl

/-- `regSet` leaves the event log unchanged. -/
theorem regSet_state {vm : VM} {i : Nat} {v : Int} {vmi : VM}
    (h : regSet vm i v = .ok vmi) : vmi.events = vm.events := by
  unfold regSet at h
  split at h
  · cases h
    rfl
  · cases h

/-- `fregSet` leaves the event log unchanged. -/
theorem fregSet_state {vm : VM} {i : Nat} {v : Float} {vmi : VM}
    (h : fregSet vm i v = .ok vmi) : vmi.events = vm.events := by
  unfold fregSet at h
  split at h
  · cases h
    rfl
  · cases h

set_option maxHeartbeats 2000000 in
/-- Helper for C4: a single execution step never touches the event log
(events are appended only by `run` itself). -/
theorem execute_instruction_events {vm vm' : VM} {d : Option Nat}
    (h : execute_instruction vm = .ok (vm', d)) : vm'.events = vm.events := by
  suffices hp : EvPres vm.events (execute_instruction vm) from hp vm' d h
  unfold execute_instruction
  split
  · exact evpres_ok rfl
  · apply evpres_bindst
    · intro op vmi hh
      exact decode_state hh
    · intro op vmi hev
      cases op <;>
        repeat'
          first
          | exact evpres_err
          | (apply evpres_ok; assumption)
          | (intro a vmj hx; exact (decode_state hx).trans (by assumption))
          | (intro a vmj hx; exact (next8_state hx).trans (by assumption))
          | (intro a vmj hx; exact (next16_state hx).trans (by assumption))
          | (intro vmj hx; exact (regSet_state hx).trans (by assumption))
          | (intro vmj hx; exact (fregSet_state hx).trans (by assumption))
          | apply evpres_bindst
          | apply evpres_bindvm
          | apply evpres_bindval
          | simp only []
          | split
          | intro x

/-- C1: the failing input is the VM's own `test_load_opcode` program,
`prepend_header [0, 0, 1, 244]` (a `LOAD $0, #500` body behind a header
whose bytes 4..8 — the little-endian field the assembler's
`write_pie_header` fills — are zero).  The spec and the claim say `run`
reads the code-start offset from that header field and starts at
`header_length + offset`; the code instead reads the little-endian `u32`
at bytes 64..68 — the first four *body* bytes, outside the 64-byte
header — and starts at `64 + 4 + offset`.  Here that offset is
4093706240, so the very first step falls off the end: the run ends with
`GracefulStop 1`, register 0 keeps 0 (the repository's own test asserts
500), and the final `pc` is `64 + 4 + 4093706240`. -/
theorem C1_offset_read_from_body :
    (VM.run { VM.new with program := prepend_header [0, 0, 1, 244] } 2).map
        (fun r => (r.2, r.1.registers.get? 0, r.1.pc))
      = .ok ([VMEventType.Start, VMEventType.GracefulStop 1], some 0, 64 + 4 + 4093706240)
    ∧ get_starting_offset { VM.new with program := prepend_header [0, 0, 1, 244] }
      = .ok 4093706240 := by
  constructor
  · rfl
  · rfl

/-- C2 counterexample: executing `LOAD` with the big-endian immediate
bytes `0xFF 0xFF` stores 65535 — the `number as i32` cast zero-extends the
`u16`, so the register value is non-negative, not the negative value the
claim requires. -/
theorem C2_load_zero_extends_cex :
    (execute_instruction { VM.new with program := [0, 0, 255, 255] }).map
        (fun r => (r.1.registers.get? 0, r.2)) = .ok (some 65535, none)
    ∧ (0 : Int) ≤ 65535 := by
  constructor
  · rfl
  · norm_num

/-- C3 counterexample: the source `.data\n.data\nhlt` declares the same
section kind twice and never `.code`, yet `assemble` succeeds — the
check only counts `sections.len() != 2`, so two `.data` headers pass it
and the bytecode (header plus the encoded `hlt`) is produced. -/
theorem C3_duplicate_data_accepted_cex :
    assembleText Assembler.new ".data\n.data\nhlt"
      = AsmResult.arOk (PIE_HEADER_MAGIC ++ List.replicate 60 0 ++ [5, 0, 0, 0]) := by
  rfl

/-- C6 counterexample: the integer-operand parser rejects `#-5` — after
`#` it demands a digit (`digit1`), so the optional `-` sign the claim
describes is not accepted and no negative immediate can be written. -/
theorem C6_minus_rejected_cex :
    integer_operand "#-5".data = .perr := by
  rfl

/-- C7: the encoder emits, for an integer operand `v`, exactly the two
bytes of the big-endian 16-bit truncation of `v` (high byte first), and
feeding those two bytes to the VM's `next_16_bits` decodes them back to
`v` modulo `2 ^ 16`. -/
theorem C7_int_operand_roundtrip (st : SymbolTable) (vm : VM) (results : List Nat) (v : Int) :
    extract_operand (Token.IntegerOperand v) results st
      = results ++ [((v.emod 65536).toNat / 256) % 256, (v.emod 65536).toNat % 256]
    ∧ (extract_operand (Token.IntegerOperand v) [] st).length = 2
    ∧ (next_16_bits { vm with program := extract_operand (Token.IntegerOperand v) [] st, pc := 0 }).map Prod.fst
        = .ok (v.emod (2 ^ 16)).toNat := by
  refine ⟨rfl, rfl, ?_⟩
  have hlt : v.emod 65536 < 65536 := Int.emod_lt_of_pos v (by norm_num)
  have hge : 0 ≤ v.emod 65536 := Int.emod_nonneg v (by norm_num)
  have hnat : (v.emod 65536).toNat < 65536 := by omega
  simp only [extract_operand, next_16_bits, progByte, List.nil_append]
  simp only [List.get?]
  simp only [Except.map, bind, Except.bind]
  norm_num
  omega

/-- C8 counterexample: with `registers[0] = -10` and the default 64-byte
heap, `ALOC $0` resizes the heap to 54 bytes — the heap shrinks, contrary
to the claim's "never shrinks ... for every register value, including
negative ones". -/
theorem C8_aloc_shrinks_cex :
    (execute_instruction { VM.new with program := [17, 0, 0, 0], registers := (List.replicate 32 (0 : Int)).set 0 (-10) }).map
        (fun r => r.1.heap.length) = .ok 54
    ∧ 54 < DEFAULT_HEAP_STARTING_SIZE := by
  constructor
  · rfl
  · norm_num [DEFAULT_HEAP_STARTING_SIZE]

/-- Helper for C10: `run` panics during header verification whenever the
program holds fewer than 4 bytes, because `program[0..4]` is sliced
before its length is checked. -/
theorem run_short_program_panics (vm : VM) (fuel : Nat)
    (h : vm.program.length < 4) :
    VM.run vm fuel = .error "slice index out of bounds" := by
  unfold VM.run verify_header
  simp [h, bind, Except.bind]

/-- C10: calling `run()` with fewer than 4 program bytes panics inside
`verify_header` (the `program[0..4]` slice) instead of returning an event
log; consequently any run that does return a log — in particular one
ending in the header-mismatch `Crash` — had at least 4 program bytes. -/
theorem C10_short_program_panics :
    (∀ (vm : VM) (fuel : Nat), vm.program.length < 4 →
        VM.run vm fuel = .error "slice index out of bounds")
    ∧ (∀ (vm : VM) (fuel : Nat) (r : VM × List VMEventType),
        VM.run vm fuel = .ok r → 4 ≤ vm.program.length) := by
  refine ⟨fun vm fuel h => run_short_program_panics vm fuel h, ?_⟩
  intro vm fuel r h
  by_contra hlt
  rw [run_short_program_panics vm fuel (by omega)] at h
  cases h

/-- C10 witness: the empty-program VM panics on `run`. -/
theorem C10_witness :
    VM.new.program.length < 4
    ∧ VM.run VM.new 1 = .error "slice index out of bounds" := by
  refine ⟨by decide, ?_⟩
  exact C10_short_program_panics.1 VM.new 1 (by decide)

/-- Helper for C4: the fetch-decode-execute loop never touches the event
log. -/
theorem runLoop_events : ∀ (fuel : Nat) (vm vm' : VM) (c : Nat),
    runLoop fuel vm = .ok (vm', c) → vm'.events = vm.events := by
  intro fuel
  induction fuel with
  | zero => intro vm vm' c h; cases h
  | succ n ih =>
    intro vm vm' c h
    unfold runLoop at h
    simp only [bind, Except.bind] at h
    split at h
    · cases h
    · rename_i res heq
      obtain ⟨vm₁, done⟩ := res
      split at h
      · cases h
        exact execute_instruction_events heq
      · exact (ih vm₁ vm' c h).trans (execute_instruction_events heq)

/-- C4 (amended): every successful `run()` appends exactly a `Start`
event and one terminal event (a `GracefulStop` with some code, or the
header-mismatch `Crash` with code 1) to the VM's event log, and returns
the whole *accumulated* log — i.e. the prior calls' events followed by
this call's `Start` and terminal event.  Only on a VM whose log was empty
is the returned log exactly `[Start, terminal]`. -/
theorem C4_run_appends_start_then_terminal (vm : VM) (fuel : Nat) (vm' : VM)
    (log : List VMEventType) (h : VM.run vm fuel = .ok (vm', log)) :
    ∃ t, log = vm.events ++ [VMEventType.Start, t]
      ∧ vm'.events = log
      ∧ ((∃ c, t = VMEventType.GracefulStop c) ∨ t = VMEventType.Crash 1) := by
  unfold VM.run at h
  simp only [] at h
  cases hv : verify_header { vm with events := vm.events ++ [VMEventType.Start] } with
  | error s => rw [hv] at h; exact absurd h (by simp [bind, Except.bind])
  | ok hdr =>
    rw [hv] at h
    simp only [bind, Except.bind] at h
    cases hdr with
    | false =>
      simp only [Bool.false_eq_true, if_false] at h
      cases h
      exact ⟨VMEventType.Crash 1, by simp, rfl, Or.inr rfl⟩
    | true =>
      simp only [if_true] at h
      cases ho : get_starting_offset { vm with events := vm.events ++ [VMEventType.Start] } with
      | error s => rw [ho] at h; exact absurd h (by simp [bind, Except.bind])
      | ok off =>
        rw [ho] at h
        simp only [bind, Except.bind] at h
        cases hl : runLoop fuel { vm with events := vm.events ++ [VMEventType.Start], pc := 64 + 4 + off } with
        | error s => rw [hl] at h; exact absurd h (by simp [bind, Except.bind])
        | ok res =>
          rw [hl] at h
          obtain ⟨vmf, code⟩ := res
          simp only [Except.bind] at h
          cases h
          have hev := runLoop_events fuel _ vmf code hl
          exact ⟨VMEventType.GracefulStop code, by simp [hev], by simp [hev], Or.inl ⟨code, rfl⟩⟩

/-- C4 witness: a fresh VM with a 4-byte non-magic program; its single
`run` returns exactly `[Start, Crash 1]`. -/
theorem C4_witness :
    VM.run { VM.new with program := [0, 0, 0, 0] } 1
      = .ok ({ VM.new with program := [0, 0, 0, 0], events := [VMEventType.Start, VMEventType.Crash 1] },
          [VMEventType.Start, VMEventType.Crash 1])
    ∧ ∃ t, [VMEventType.Start, VMEventType.Crash 1]
        = ({ VM.new with program := [0, 0, 0, 0] } : VM).events ++ [VMEventType.Start, t]
      ∧ ({ VM.new with program := [0, 0, 0, 0], events := [VMEventType.Start, VMEventType.Crash 1] } : VM).events
          = [VMEventType.Start, VMEventType.Crash 1]
      ∧ ((∃ c, t = VMEventType.GracefulStop c) ∨ t = VMEventType.Crash 1) := by
  constructor
  · rfl
  · exact C4_run_appends_start_then_terminal { VM.new with program := [0, 0, 0, 0] } 1 _ _ rfl

/-- C4 counterexample: the claim fails for a second `run()` on the same
instance — the event log is a field of the VM and is never cleared, so
the second call returns the four events
`[Start, Crash 1, Start, Crash 1]`, not a `Start` followed by exactly one
terminal event. -/
theorem C4_second_run_returns_four_events_cex :
    ((VM.run { VM.new with program := [0, 0, 0, 0] } 1).bind
        (fun r => VM.run r.1 1)).map (fun r => r.2)
      = .ok [VMEventType.Start, VMEventType.Crash 1, VMEventType.Start, VMEventType.Crash 1]
    ∧ ([VMEventType.Start, VMEventType.Crash 1, VMEventType.Start, VMEventType.Crash 1].length ≠ 2) := by
  exact ⟨rfl, by decide⟩

/-- C2 (amended): `LOAD` stores the big-endian 16-bit immediate
zero-extended: for any register index `r` below the register-file length
and immediate bytes `b1 b2`, the stored value is the non-negative integer
`b1 * 256 + b2` — never a negative value. -/
theorem C2_amended_load_zero_extends (vm : VM) (r b1 b2 : Nat)
    (h0 : vm.program.get? vm.pc = some 0)
    (h1 : vm.program.get? (vm.pc + 1) = some r)
    (h2 : vm.program.get? (vm.pc + 2) = some b1)
    (h3 : vm.program.get? (vm.pc + 3) = some b2)
    (hr : r < vm.registers.length) :
    (execute_instruction vm).map (fun res => (res.1.registers.get? r, res.2))
      = .ok (some ((b1 * 256 + b2 : Nat) : Int), none)
    ∧ (0 : Int) ≤ ((b1 * 256 + b2 : Nat) : Int) := by
  have hpc : vm.pc < vm.program.length := (List.get?_eq_some.mp h0).1
  have h0' : vm.program[vm.pc]? = some 0 := by rw [← List.get?_eq_getElem?]; exact h0
  have h1' : vm.program[vm.pc + 1]? = some r := by rw [← List.get?_eq_getElem?]; exact h1
  have h2' : vm.program[vm.pc + 1 + 1]? = some b1 := by
    rw [← List.get?_eq_getElem?, show vm.pc + 1 + 1 = vm.pc + 2 from by omega]; exact h2
  have h3' : vm.program[vm.pc + 1 + 1 + 1]? = some b2 := by
    rw [← List.get?_eq_getElem?, show vm.pc + 1 + 1 + 1 = vm.pc + 3 from by omega]; exact h3
  refine ⟨?_, by positivity⟩
  simp [execute_instruction, decode_opcode, next_8_bits, next_16_bits, progByte, regSet,
    Opcode.fromByte, bind, Except.bind, Except.map, Nat.not_le.mpr hpc,
    List.get?_eq_getElem?, h0', h1', h2', h3', hr, List.getElem?_set_eq hr]

/-- C2 amended witness: the `LOAD $0, 0xFFFF` program. -/
theorem C2_amended_witness :
    (execute_instruction { VM.new with program := [0, 0, 255, 255] }).map
        (fun res => (res.1.registers.get? 0, res.2))
      = .ok (some ((255 * 256 + 255 : Nat) : Int), none)
    ∧ (0 : Int) ≤ ((255 * 256 + 255 : Nat) : Int) := by
  exact C2_amended_load_zero_extends { VM.new with program := [0, 0, 255, 255] } 0 255 255
    (by rfl) (by rfl) (by rfl) (by rfl) (by decide)

/-- C8 (amended): `ALOC` performs an additive resize to `h + n` where `h`
is the current heap length and `n` the operand register's value: the heap
is zero-padded up to `h + n` when `n ≥ 0`, and truncated down to `h + n`
(it shrinks) when `n < 0`, as long as `0 ≤ h + n` and the arithmetic stays
inside the `i32` range. -/
theorem C8_amended_additive_resize (vm : VM) (b : Nat) (n : Int)
    (h0 : vm.program.get? vm.pc = some 17)
    (h1 : vm.program.get? (vm.pc + 1) = some b)
    (hreg : vm.registers.get? b = some n)
    (hh : (vm.heap.length : Int) < 2 ^ 31)
    (hlow : 0 ≤ (vm.heap.length : Int) + n)
    (hhigh : (vm.heap.length : Int) + n < 2 ^ 31) :
    (execute_instruction vm).map (fun res => (res.1.heap, res.2))
      = .ok (listResize vm.heap ((vm.heap.length : Int) + n).toNat 0, none)
    ∧ (listResize vm.heap ((vm.heap.length : Int) + n).toNat 0).length
        = ((vm.heap.length : Int) + n).toNat
    ∧ (0 ≤ n → listResize vm.heap ((vm.heap.length : Int) + n).toNat 0
        = vm.heap ++ List.replicate n.toNat 0) := by
  have hpc : vm.pc < vm.program.length := (List.get?_eq_some.mp h0).1
  have h0' : vm.program[vm.pc]? = some 17 := by rw [← List.get?_eq_getElem?]; exact h0
  have h1' : vm.program[vm.pc + 1]? = some b := by rw [← List.get?_eq_getElem?]; exact h1
  have hreg' : vm.registers[b]? = some n := by rw [← List.get?_eq_getElem?]; exact hreg
  have hemod : ∀ a b : Int, Int.emod a b = a % b := fun _ _ => rfl
  have hcast : i32OfUsize vm.heap.length = (vm.heap.length : Int) := by
    unfold i32OfUsize wrap32
    simp only [hemod]
    omega
  have hwrap : wrap32 ((vm.heap.length : Int) + n) = (vm.heap.length : Int) + n := by
    unfold wrap32
    simp only [hemod]
    omega
  have husize : usizeOfI32 ((vm.heap.length : Int) + n) = ((vm.heap.length : Int) + n).toNat := by
    unfold usizeOfI32
    simp only [hemod]
    omega
  refine ⟨?_, ?_, ?_⟩
  · simp [execute_instruction, decode_opcode, next_8_bits, progByte, regGet,
      Opcode.fromByte, bind, Except.bind, Except.map, Nat.not_le.mpr hpc,
      List.get?_eq_getElem?, h0', h1', hreg', hcast, hwrap, husize]
  · unfold listResize
    split
    · simp
      omega
    · simp
      omega
  · intro hn
    unfold listResize
    have : ((vm.heap.length : Int) + n).toNat = vm.heap.length + n.toNat := by omega
    rw [this]
    by_cases hz : n = 0
    · subst hz
      simp
    · rw [if_neg (by omega)]
      simp

/-- C8 amended witness: `ALOC $0` with `registers[0] = -10` on the default
64-byte heap truncates it to 54 bytes. -/
theorem C8_amended_witness :
    (execute_instruction { VM.new with program := [17, 0, 0, 0], registers := (List.replicate 32 (0 : Int)).set 0 (-10) }).map
        (fun res => (res.1.heap, res.2))
      = .ok (listResize (List.replicate 64 0) ((64 : Int) + -10).toNat 0, none)
    ∧ (listResize (List.replicate 64 0) ((64 : Int) + -10).toNat 0).length = ((64 : Int) + -10).toNat
    ∧ (0 ≤ (-10 : Int) → listResize (List.replicate 64 0) ((64 : Int) + -10).toNat 0
        = List.replicate 64 0 ++ List.replicate (-10 : Int).toNat 0) := by
  have h := C8_amended_additive_resize
    { VM.new with program := [17, 0, 0, 0], registers := (List.replicate 32 (0 : Int)).set 0 (-10) }
    0 (-10) (by rfl) (by rfl) (by rfl)
    (by norm_num [VM.new, DEFAULT_HEAP_STARTING_SIZE])
    (by norm_num [VM.new, DEFAULT_HEAP_STARTING_SIZE])
    (by norm_num [VM.new, DEFAULT_HEAP_STARTING_SIZE])
  simpa [VM.new, DEFAULT_HEAP_STARTING_SIZE] using h

/-- C6 (amended): the integer-operand parser accepts optional leading
whitespace, `#`, and one or more decimal digits — with no sign — and
yields an `IntegerOperand` holding that non-negative value (the
`parse::<i32>().unwrap()` panics above `i32::MAX`, hence the range
hypothesis). -/
theorem C6_amended_unsigned_digits (ws ds : List Char)
    (hws : ∀ c ∈ ws, isMultispace c = true)
    (hne : ds ≠ [])
    (hds : ∀ c ∈ ds, c.isDigit = true)
    (hrange : digitsToNat ds < 2 ^ 31) :
    integer_operand (ws ++ '#' :: ds)
      = .pok [] (Token.IntegerOperand (digitsToNat ds)) := by
  unfold integer_operand
  have hdrop : (ws ++ '#' :: ds).dropWhile isMultispace = '#' :: ds := by
    induction ws with
    | nil => rw [List.nil_append, List.dropWhile_cons_of_neg (by decide)]
    | cons c cs ih =>
      rw [List.cons_append, List.dropWhile_cons_of_pos (hws c (by simp))]
      exact ih (fun d hd => hws d (by simp [hd]))
  rw [hdrop]
  have htake : ds.takeWhile Char.isDigit = ds := List.takeWhile_eq_self_iff.mpr hds
  simp [htake, hne, Nat.not_le.mpr hrange]
  omega

/-- C6 amended witness: `" #42"` parses to the integer operand 42. -/
theorem C6_amended_witness :
    (∀ c ∈ [' '], isMultispace c = true)
    ∧ (['4', '2'] ≠ ([] : List Char))
    ∧ (∀ c ∈ ['4', '2'], Char.isDigit c = true)
    ∧ digitsToNat ['4', '2'] < 2 ^ 31
    ∧ integer_operand ([' '] ++ '#' :: ['4', '2'])
        = .pok [] (Token.IntegerOperand (digitsToNat ['4', '2'])) := by
  refine ⟨by decide, by decide, by decide, by decide, ?_⟩
  exact C6_amended_unsigned_digits [' '] ['4', '2'] (by decide) (by decide) (by decide)
    (by decide)

/-- C3 (amended): for a source that parses and accrues no first-pass
errors, `assemble` aborts with `InsufficientSections` (as the sole error)
exactly when the number of recognized section headers — counted with
multiplicity, regardless of kind — differs from two. -/
theorem C3_amended_sections_counted (raw : String) (rest : List Char) (p : Program)
    (hp : programOf raw.data = .pok rest p)
    (he : (process_first_phase Assembler.new p).errors = []) :
    (assembleText Assembler.new raw = AsmResult.arErr [AssemblerError.InsufficientSections]
      ↔ (process_first_phase Assembler.new p).sections.length ≠ 2) := by
  unfold assembleText
  rw [hp]
  unfold assembleProgram
  by_cases hs : (process_first_phase Assembler.new p).sections.length = 2
  · simp [he, hs]
  · simp [he, hs]

/-- C3 amended witness: `".data\nhlt"` opens a single section, so
assembly aborts with exactly `InsufficientSections`. -/
theorem C3_amended_witness :
    programOf ".data\nhlt".data = .pok [] { instructions := [dirDataI, hltI] }
    ∧ (process_first_phase Assembler.new { instructions := [dirDataI, hltI] }).errors = []
    ∧ (assembleText Assembler.new ".data\nhlt"
          = AsmResult.arErr [AssemblerError.InsufficientSections]
        ↔ (process_first_phase Assembler.new { instructions := [dirDataI, hltI] }).sections.length ≠ 2) := by
  refine ⟨rfl, rfl, ?_⟩
  exact C3_amended_sections_counted ".data\nhlt" [] { instructions := [dirDataI, hltI] } rfl rfl

/-! ### Helper lemmas for C5: the first pass processes label names in
order; the symbol table collects first occurrences and every duplicate
processing appends one `SymbolAlreadyDeclared` error. -/

/-- `has_symbol` tests membership among the table's names. -/
theorem has_symbol_iff (st : SymbolTable) (n : String) :
    st.has_symbol n = true ↔ n ∈ st.symbols.map Symbol.name := by
  unfold SymbolTable.has_symbol
  rw [List.any_eq_true]
  simp only [List.mem_map, beq_iff_eq]

/-- Setting a symbol's offset does not change the table's names. -/
theorem setOffsetFirst_names (s : String) (off : Nat) :
    ∀ l : List Symbol, (setOffsetFirst s off l).map Symbol.name = l.map Symbol.name := by
  intro l
  induction l with
  | nil => rfl
  | cons sym rest ih =>
    unfold setOffsetFirst
    split
    · simp
    · simp [ih]

/-- Appending a non-`SymbolAlreadyDeclared` error does not change the
`SymbolAlreadyDeclared` count. -/
theorem count_sad_append (l : List AssemblerError) (e : AssemblerError)
    (h : e ≠ AssemblerError.SymbolAlreadyDeclared) :
    (l ++ [e]).count AssemblerError.SymbolAlreadyDeclared
      = l.count AssemblerError.SymbolAlreadyDeclared := by
  rw [List.count_append]
  have h0 : List.count AssemblerError.SymbolAlreadyDeclared [e] = 0 := by
    rw [List.count_eq_zero, List.mem_singleton]
    intro hc
    exact h hc.symm
  omega

/-- Appending a `SymbolAlreadyDeclared` error increments its count. -/
theorem count_sad_append_sad (l : List AssemblerError) :
    (l ++ [AssemblerError.SymbolAlreadyDeclared]).count AssemblerError.SymbolAlreadyDeclared
      = l.count AssemblerError.SymbolAlreadyDeclared + 1 := by
  rw [List.count_append]
  simp

/-- `handle_asciiz` changes neither the table's names, nor the errors,
nor the current section. -/
theorem handle_asciiz_facts (a : Assembler) (i : AssemblerInstruction) :
    (handle_asciiz a i).symbols.symbols.map Symbol.name = a.symbols.symbols.map Symbol.name
    ∧ (handle_asciiz a i).errors = a.errors
    ∧ (handle_asciiz a i).current_section = a.current_section := by
  unfold handle_asciiz
  split
  · exact ⟨rfl, rfl, rfl⟩
  · split
    · split
      · exact ⟨setOffsetFirst_names _ _ _, rfl, rfl⟩
      · exact ⟨rfl, rfl, rfl⟩
    · exact ⟨rfl, rfl, rfl⟩

/-- `process_section_header` changes neither symbols nor errors, and sets
the current section exactly for known section names. -/
theorem process_section_header_facts (a : Assembler) (nm : String) :
    (process_section_header a nm).symbols = a.symbols
    ∧ (process_section_header a nm).errors = a.errors
    ∧ (process_section_header a nm).current_section
        = (if AssemblerSection.fromName nm = AssemblerSection.Unknown then a.current_section
           else some (AssemblerSection.fromName nm)) := by
  unfold process_section_header
  split
  · rename_i h
    rw [if_pos h]
    exact ⟨rfl, rfl, rfl⟩
  · rename_i h
    rw [if_neg h]
    exact ⟨rfl, rfl, rfl⟩

/-- `process_directive` keeps the table's names and the
`SymbolAlreadyDeclared` error count, and moves the current section as
`sectionAfter` prescribes for directive instructions. -/
theorem process_directive_facts (a : Assembler) (i : AssemblerInstruction) :
    (process_directive a i).symbols.symbols.map Symbol.name = a.symbols.symbols.map Symbol.name
    ∧ (process_directive a i).errors.count AssemblerError.SymbolAlreadyDeclared
        = a.errors.count AssemblerError.SymbolAlreadyDeclared
    ∧ (process_directive a i).current_section
        = (match i.get_directive_name with
           | none => a.current_section
           | some nm =>
             if i.has_operands then a.current_section
             else if AssemblerSection.fromName nm = AssemblerSection.Unknown then a.current_section
             else some (AssemblerSection.fromName nm)) := by
  unfold process_directive
  cases hd : i.get_directive_name with
  | none => exact ⟨rfl, rfl, rfl⟩
  | some nm =>
    simp only []
    by_cases ho : i.has_operands
    · rw [if_pos ho, if_pos ho]
      split
      · obtain ⟨h1, h2, h3⟩ := handle_asciiz_facts a i
        exact ⟨h1, by rw [h2], h3⟩
      · exact ⟨rfl, count_sad_append _ _ (by simp), rfl⟩
    · rw [if_neg ho, if_neg ho]
      obtain ⟨h1, h2, h3⟩ := process_section_header_facts a nm
      exact ⟨by rw [h1], by rw [h2], h3⟩

/-- One first-pass step: the table's names absorb the instruction's label
events via first-occurrence accumulation, the `SymbolAlreadyDeclared`
count grows by the number of duplicate events, and the section moves as
`sectionAfter` prescribes. -/
theorem firstPhaseStep_facts (a : Assembler) (i : AssemblerInstruction) :
    ((firstPhaseStep a i).symbols.symbols.map Symbol.name
      = addList (a.symbols.symbols.map Symbol.name) (labelHere a.current_section i))
    ∧ ((firstPhaseStep a i).errors.count AssemblerError.SymbolAlreadyDeclared
      = a.errors.count AssemblerError.SymbolAlreadyDeclared
        + dupCount (a.symbols.symbols.map Symbol.name) (labelHere a.current_section i))
    ∧ ((firstPhaseStep a i).current_section = sectionAfter a.current_section i) := by
  have hdirpart : ∀ b : Assembler,
      ((if i.is_directive then process_directive b i else b).symbols.symbols.map Symbol.name
         = b.symbols.symbols.map Symbol.name)
      ∧ ((if i.is_directive then process_directive b i else b).errors.count
            AssemblerError.SymbolAlreadyDeclared
         = b.errors.count AssemblerError.SymbolAlreadyDeclared)
      ∧ (b.current_section = a.current_section →
          (if i.is_directive then process_directive b i else b).current_section
            = sectionAfter a.current_section i) := by
    intro b
    by_cases hdir : i.is_directive
    · obtain ⟨h1, h2, h3⟩ := process_directive_facts b i
      rw [if_pos hdir]
      refine ⟨h1, h2, ?_⟩
      intro hb
      rw [h3]
      unfold sectionAfter
      rw [if_pos hdir, hb]
    · rw [if_neg hdir]
      refine ⟨rfl, rfl, ?_⟩
      intro hb
      unfold sectionAfter
      rw [if_neg hdir, hb]
  unfold firstPhaseStep
  by_cases hl : i.is_label
  · by_cases hcs : a.current_section.isSome
    · rw [if_pos hl, if_pos hcs]
      unfold process_label_declaration
      cases hn : i.get_label_name with
      | none =>
        have hhere : labelHere a.current_section i = [] := by
          unfold labelHere
          rw [hl, hcs, hn]
          simp
        simp only []
        obtain ⟨g1, g2, g3⟩ := hdirpart
          { a with errors := a.errors
            ++ [AssemblerError.StringConstantDeclaredWithoutLabel a.current_instruction] }
        refine ⟨?_, ?_, g3 rfl⟩
        · rw [g1, hhere]
          simp [addList]
        · rw [g2, hhere]
          rw [count_sad_append _ _ (by simp)]
          simp [dupCount]
      | some n =>
        have hhere : labelHere a.current_section i = [n] := by
          unfold labelHere
          rw [hl, hcs, hn]
          simp
        simp only []
        by_cases hhas : a.symbols.has_symbol n
        · have hmem : n ∈ a.symbols.symbols.map Symbol.name := (has_symbol_iff _ _).mp hhas
          rw [if_pos hhas]
          obtain ⟨g1, g2, g3⟩ := hdirpart
            { a with errors := a.errors ++ [AssemblerError.SymbolAlreadyDeclared] }
          refine ⟨?_, ?_, g3 rfl⟩
          · rw [g1, hhere]
            simp [addList, hmem]
          · rw [g2, hhere]
            simp [dupCount, hmem, count_sad_append_sad]
        · have hmem : n ∉ a.symbols.symbols.map Symbol.name := by
            intro hc
            exact hhas ((has_symbol_iff _ _).mpr hc)
          rw [if_neg hhas]
          obtain ⟨g1, g2, g3⟩ := hdirpart
            { a with symbols := a.symbols.add_symbol (Symbol.new n SymbolType.Label) }
          refine ⟨?_, ?_, g3 rfl⟩
          · rw [g1, hhere]
            simp [SymbolTable.add_symbol, addList, hmem, Symbol.new]
          · rw [g2, hhere]
            simp [dupCount, hmem]
    · rw [if_pos hl, if_neg hcs]
      have hhere : labelHere a.current_section i = [] := by
        unfold labelHere
        rw [hl]
        simp only [Bool.not_eq_true] at hcs
        rw [hcs]
        simp
      obtain ⟨g1, g2, g3⟩ := hdirpart
        { a with errors := a.errors ++ [AssemblerError.NoSegmentDeclarationFound a.current_instruction] }
      refine ⟨?_, ?_, g3 rfl⟩
      · rw [g1, hhere]
        simp [addList]
      · rw [g2, hhere]
        rw [count_sad_append _ _ (by simp)]
        simp [dupCount]
  · rw [if_neg hl]
    have hhere : labelHere a.current_section i = [] := by
      unfold labelHere
      simp only [Bool.not_eq_true] at hl
      rw [hl]
      simp
    simp only [Bool.not_eq_true] at hl
    obtain ⟨g1, g2, g3⟩ := hdirpart a
    refine ⟨?_, ?_, g3 rfl⟩
    · rw [g1, hhere]
      simp [addList]
    · rw [g2, hhere]
      simp [dupCount]

/-- First-occurrence accumulation distributes over append. -/
theorem addList_append (l1 l2 : List String) : ∀ hv : List String,
    addList hv (l1 ++ l2) = addList (addList hv l1) l2 := by
  induction l1 with
  | nil => intro hv; rfl
  | cons n l ih =>
    intro hv
    simp only [List.cons_append, addList]
    split
    · exact ih hv
    · exact ih (hv ++ [n])

/-- Duplicate counting distributes over append. -/
theorem dupCount_append (l1 l2 : List String) : ∀ hv : List String,
    dupCount hv (l1 ++ l2) = dupCount hv l1 + dupCount (addList hv l1) l2 := by
  induction l1 with
  | nil => intro hv; simp [dupCount, addList]
  | cons n l ih =>
    intro hv
    simp only [List.cons_append, dupCount, addList, List.append_eq]
    split
    · rw [ih hv]
      omega
    · exact ih (hv ++ [n])

/-- The first-pass fold: the resulting table names are the
first-occurrence accumulation of the processed label events over the
initial names, and the `SymbolAlreadyDeclared` count grows by the number
of duplicate events. -/
theorem firstFold_invariant (is : List AssemblerInstruction) : ∀ a : Assembler,
    ((is.foldl firstPhaseStep a).symbols.symbols.map Symbol.name
      = addList (a.symbols.symbols.map Symbol.name) (labelEvts a.current_section is))
    ∧ ((is.foldl firstPhaseStep a).errors.count AssemblerError.SymbolAlreadyDeclared
      = a.errors.count AssemblerError.SymbolAlreadyDeclared
        + dupCount (a.symbols.symbols.map Symbol.name) (labelEvts a.current_section is)) := by
  induction is with
  | nil =>
    intro a
    simp [labelEvts, addList, dupCount]
  | cons i rest ih =>
    intro a
    rw [List.foldl_cons]
    obtain ⟨hn, hc, hs⟩ := firstPhaseStep_facts a i
    obtain ⟨ihn, ihc⟩ := ih (firstPhaseStep a i)
    unfold labelEvts
    rw [addList_append, dupCount_append]
    constructor
    · rw [ihn, hs, hn]
    · rw [ihc, hs, hn, hc]
      omega

/-- Membership in the first-occurrence accumulation. -/
theorem mem_addList (m : String) (l : List String) : ∀ hv : List String,
    (m ∈ addList hv l ↔ m ∈ hv ∨ m ∈ l) := by
  induction l with
  | nil => intro hv; simp [addList]
  | cons n rest ih =>
    intro hv
    simp only [addList]
    split
    · rename_i hmem
      rw [ih hv, List.mem_cons]
      constructor
      · rintro (h | h)
        · exact Or.inl h
        · exact Or.inr (Or.inr h)
      · rintro (h | h | h)
        · exact Or.inl h
        · exact Or.inl (h ▸ hmem)
        · exact Or.inr h
    · rw [ih (hv ++ [n]), List.mem_append, List.mem_singleton, List.mem_cons]
      tauto

/-- The first-occurrence accumulation of a nodup base stays nodup. -/
theorem addList_nodup (l : List String) : ∀ hv : List String,
    hv.Nodup → (addList hv l).Nodup := by
  induction l with
  | nil => intro hv h; exact h
  | cons n rest ih =>
    intro hv h
    simp only [addList]
    split
    · exact ih hv h
    · rename_i hnm
      exact ih (hv ++ [n]) (by simp [List.nodup_append, h, hnm])

/-- The duplicate count plus the number of accumulated names equals the
number of processed names plus the initial count. -/
theorem dupCount_add_length (l : List String) : ∀ hv : List String,
    dupCount hv l + (addList hv l).length = hv.length + l.length := by
  induction l with
  | nil => intro hv; simp [dupCount, addList]
  | cons n rest ih =>
    intro hv
    simp only [dupCount, addList]
    split
    · have := ih hv
      simp only [List.length_cons]
      omega
    · have h := ih (hv ++ [n])
      have hl : (hv ++ [n]).length = hv.length + 1 := by simp
      rw [hl] at h
      simp only [List.length_cons]
      omega

/-- A list in which one element occurs twice and every other at most once
is one longer than its set of distinct elements. -/
theorem length_eq_card_add_one {l : List String} {n : String}
    (h2 : l.count n = 2) (h1 : ∀ m, m ≠ n → l.count m ≤ 1) :
    l.length = l.toFinset.card + 1 := by
  have hn : n ∈ l.toFinset := by
    rw [List.mem_toFinset]
    exact List.count_pos_iff.mp (by omega)
  have hsum : ∑ a ∈ l.toFinset, l.count a = l.length := by
    have := Multiset.toFinset_sum_count_eq (l : Multiset String)
    simpa using this
  have hsplit : ∑ a ∈ l.toFinset.erase n, l.count a + l.count n
      = ∑ a ∈ l.toFinset, l.count a :=
    Finset.sum_erase_add _ _ hn
  have hone : ∑ a ∈ l.toFinset.erase n, l.count a = (l.toFinset.erase n).card := by
    rw [Finset.card_eq_sum_ones]
    refine Finset.sum_congr rfl ?_
    intro m hm
    have hmn : m ≠ n := (Finset.mem_erase.mp hm).1
    have hml : m ∈ l := List.mem_toFinset.mp (Finset.mem_erase.mp hm).2
    have hpos : 0 < l.count m := List.count_pos_iff.mpr hml
    have hle := h1 m hmn
    omega
  have hcarderase : (l.toFinset.erase n).card = l.toFinset.card - 1 :=
    Finset.card_erase_of_mem hn
  have hpos : 0 < l.toFinset.card := Finset.card_pos.mpr ⟨n, hn⟩
  omega

/-- Starting from an empty table, a name sequence with exactly one
duplicate occurrence produces exactly one duplicate event. -/
theorem dupCount_nil_eq_one {l : List String} {n : String}
    (h2 : l.count n = 2) (h1 : ∀ m, m ≠ n → l.count m ≤ 1) :
    dupCount [] l = 1 := by
  have hlen := dupCount_add_length l []
  have hnodup : (addList [] l).Nodup := addList_nodup l [] List.nodup_nil
  have htofin : (addList [] l).toFinset = l.toFinset := by
    ext m
    simp [List.mem_toFinset, mem_addList]
  have hcard : (addList [] l).length = l.toFinset.card := by
    rw [← htofin]
    exact (List.toFinset_card_of_nodup hnodup).symm
  have hlc : l.length = l.toFinset.card + 1 := length_eq_card_add_one h2 h1
  simp only [List.length_nil] at hlen
  omega

/-- C5: in one assembly run (a fresh assembler) whose first pass processes
the label name `n` exactly twice and every other label name at most once,
exactly one `SymbolAlreadyDeclared` error is recorded, the symbol table
keeps exactly one entry named `n` (the duplicate is not added), and
`assemble` aborts before pass 2, returning the pass-1 errors and emitting
no bytecode. -/
theorem C5_duplicate_label_one_error (p : Program) (n : String)
    (h2 : (labelEvts none p.instructions).count n = 2)
    (h1 : ∀ m, m ≠ n → (labelEvts none p.instructions).count m ≤ 1) :
    (process_first_phase Assembler.new p).errors.count AssemblerError.SymbolAlreadyDeclared = 1
    ∧ ((process_first_phase Assembler.new p).symbols.symbols.map Symbol.name).count n = 1
    ∧ assembleProgram Assembler.new p
        = .error (process_first_phase Assembler.new p).errors := by
  obtain ⟨hnames, hcount⟩ := firstFold_invariant p.instructions Assembler.new
  have hppe : (process_first_phase Assembler.new p).errors
      = (p.instructions.foldl firstPhaseStep Assembler.new).errors := rfl
  have hpps : (process_first_phase Assembler.new p).symbols
      = (p.instructions.foldl firstPhaseStep Assembler.new).symbols := rfl
  have hinit_names : Assembler.new.symbols.symbols.map Symbol.name = [] := rfl
  have hinit_sec : Assembler.new.current_section = none := rfl
  rw [hinit_names, hinit_sec] at hnames hcount
  have hc1 : (process_first_phase Assembler.new p).errors.count
      AssemblerError.SymbolAlreadyDeclared = 1 := by
    rw [hppe, hcount, dupCount_nil_eq_one h2 h1]
    rfl
  refine ⟨hc1, ?_, ?_⟩
  · rw [hpps, hnames]
    have hnodup : (addList [] (labelEvts none p.instructions)).Nodup :=
      addList_nodup _ [] List.nodup_nil
    have hmem : n ∈ addList [] (labelEvts none p.instructions) := by
      rw [mem_addList]
      exact Or.inr (List.count_pos_iff.mp (by omega))
    exact List.count_eq_one_of_mem hnodup hmem
  · have hne : (process_first_phase Assembler.new p).errors ≠ [] := by
      intro hc
      rw [hc] at hc1
      simp at hc1
    unfold assembleProgram
    rw [if_pos hne]

/-- C5 witness: `.data`, `.code`, then the label `a` declared twice on
`inc` instructions, then `hlt`. -/
theorem C5_witness :
    (labelEvts none [dirDataI, dirCodeI, labelledIncI "a", labelledIncI "a", hltI]).count "a" = 2
    ∧ (process_first_phase Assembler.new
        { instructions := [dirDataI, dirCodeI, labelledIncI "a", labelledIncI "a", hltI] }).errors.count
          AssemblerError.SymbolAlreadyDeclared = 1
    ∧ ((process_first_phase Assembler.new
        { instructions := [dirDataI, dirCodeI, labelledIncI "a", labelledIncI "a", hltI] }).symbols.symbols.map
          Symbol.name).count "a" = 1
    ∧ assembleProgram Assembler.new
        { instructions := [dirDataI, dirCodeI, labelledIncI "a", labelledIncI "a", hltI] }
      = .error (process_first_phase Assembler.new
          { instructions := [dirDataI, dirCodeI, labelledIncI "a", labelledIncI "a", hltI] }).errors := by
  have hevts : labelEvts none [dirDataI, dirCodeI, labelledIncI "a", labelledIncI "a", hltI]
      = ["a", "a"] := rfl
  have h1 : ∀ m, m ≠ "a" →
      (labelEvts none [dirDataI, dirCodeI, labelledIncI "a", labelledIncI "a", hltI]).count m ≤ 1 := by
    intro m hm
    rw [hevts]
    have hnm : m ∉ ["a", "a"] := by simp [hm]
    simp [List.count_eq_zero_of_not_mem hnm]
  have h := C5_duplicate_label_one_error
    { instructions := [dirDataI, dirCodeI, labelledIncI "a", labelledIncI "a", hltI] } "a"
    (by rw [hevts]; rfl) h1
  exact ⟨by rw [hevts]; rfl, h.1, h.2.1, h.2.2⟩

end LRVM
